import Mathlib

/-!
DASer configuration, lifecycle and test-order helpers.

A shallow embedding of

* `nodebuilder/daser/config.go`  (`Config`, `DefaultConfig`, `Config.Validate`),
* `nodebuilder/daser/module.go`  (the option list built inside `ConstructModule`),
* `nodebuilder/daser/daser.go`   (the `NewDASer` forwarder),
* `das/daser.go`                 (`dasingParams`, the `WithParam…` options, `NewDASer`,
                                  `DASer.Start`, `DASer.Stop`),
* `das/coordinator_test.go`      (`checkOrder.addInterval`, `checkOrder.addStacks`,
                                  `checkOrder.middleWare`, `onceMiddleWare`,
                                  `newMockSampler`, `mockSampler.sample`).

Conventions.  Go's `uint`, `uint64` are natural numbers below `2 ^ 64`, `int`, `int64` and
`time.Duration` are integers in `[-2 ^ 63, 2 ^ 63)`; every arithmetic operation and every
conversion that can leave the range is written with its explicit wrap-around.  Loops and
recursions that the source does not bound are given a fuel argument and return `none` when it
runs out.  Collaborators whose code is outside the embedded files (header subscriber, header
getter, checkpoint store, sampling coordinator) are represented by the outcome of each of
their calls, supplied by an environment record, and every call is logged in a trace.
-/

/-- Size of the 64-bit unsigned range. -/
def u64 : Nat := 2 ^ 64

/-- Go `a + b` on `uint64`. -/
def add64 (a b : Nat) : Nat := (a + b) % u64

/-- Go `a - b` on `uint64`. -/
def sub64 (a b : Nat) : Nat := (a + (u64 - b % u64)) % u64

/-- Go conversion `int(x)` of an unsigned 64-bit value (two's complement reinterpretation). -/
def intOfUint (x : Nat) : Int :=
  if x % u64 < 2 ^ 63 then ((x % u64 : Nat) : Int) else ((x % u64 : Nat) : Int) - (u64 : Int)

/-- Go conversion `uint(x)` / `uint64(x)` of a signed 64-bit value. -/
def uintOfInt (x : Int) : Nat := (x % (u64 : Int)).toNat

/-- Errors returned by the embedded functions, one constructor per error site. -/
inductive Err where
  /-- Go `ErrNegativeInterval` of `nodebuilder/daser/config.go`. -/
  | negativeInterval
  /-- Error `"da: DASer already started"` of `DASer.Start`. -/
  | alreadyStarted
  /-- Error `"DASer force quit: %w"` of `DASer.Stop`, wrapping the error of `sampler.wait`. -/
  | forceQuit (wrapped : Err)
  /-- Error `"DASer force quit with err: %w"` of `DASer.Stop`, wrapping the error of `store.wait`. -/
  | forceQuitWithErr (wrapped : Err)
  /-- Error `"expected height: %v,got: %v"` of `checkOrder.middleWare`. -/
  | expectedHeight (expected : Nat) (got : Int)
  /-- Any error produced by a collaborator, identified by a code. -/
  | external (code : Nat)
  /-- Error `"header sampled more than once: %v"` of `onceMiddleWare`. -/
  | sampledTwice (height : Int)
  /-- Error `"born to fail, sad life"` of `mockSampler.sample`. -/
  | bornToFail
  /-- Error `"header: %v out of range: %v-%v"` of `mockSampler.sample`. -/
  | outOfRange (height : Int) (sampleFrom networkHead : Nat)
  deriving DecidableEq, Repr

namespace daser

/-- Go `Config` of `nodebuilder/daser/config.go`. -/
structure Config where
  SamplingRange : Nat
  ConcurrencyLimit : Nat
  BackgroundStoreInterval : Int
  PriorityQueueSize : Nat
  GenesisHeight : Nat
  deriving DecidableEq, Repr

/-- Go `time.Minute` in nanoseconds. -/
def Minute : Int := 60 * 1000000000

/-- Go `DefaultConfig` of `nodebuilder/daser/config.go`. -/
def DefaultConfig : Config :=
  { SamplingRange := 100
    ConcurrencyLimit := 16
    BackgroundStoreInterval := 10 * Minute
    PriorityQueueSize := 16 * 4
    GenesisHeight := 1 }

/-- Go `(*Config).Validate`: the receiver is a pointer, so the function is embedded as a state
transformer returning the configuration after the call together with the error (`none` is
Go's `nil`). -/
def Config.Validate (cfg : Config) : Config × Option Err :=
  if cfg.BackgroundStoreInterval ≤ 0 then (cfg, some Err.negativeInterval) else (cfg, none)

end daser

namespace das

/-- Go `dasingParams` of `das/daser.go`; `uint` is 64 bits wide, `time.Duration` is a signed
count of nanoseconds. -/
structure dasingParams where
  samplingRange : Nat
  concurrencyLimit : Nat
  bgStoreInterval : Int
  priorityQueueSize : Nat
  genesisHeight : Nat
  deriving DecidableEq, Repr

/-- Modelled from the spec: the type `workerCheckpoint`, declared in a file of package `das`
that is not among the embedded ones; the spec gives it as `{from, to, current}`. -/
structure workerCheckpoint where
  From : Nat
  To : Nat
  Current : Nat
  deriving DecidableEq, Repr

/-- Modelled from the spec: the type `checkpoint`, declared in a file of package `das` that
is not among the embedded ones; the spec gives it as
`{SampleFrom, NetworkHead, Failed: map<Height,u16>, Workers: seq<WorkerCheckpoint>}` and
`newMockSampler` of `das/coordinator_test.go` uses exactly these four fields.  A Go map is
an association list here, and a `nil` map or slice is the empty list. -/
structure checkpoint where
  SampleFrom : Nat
  NetworkHead : Nat
  Failed : List (Nat × Nat)
  Workers : List workerCheckpoint
  deriving DecidableEq, Repr

/-- What `newSamplingCoordinator(d.params, getter, d.sample)` is given by `NewDASer`: a copy
of the parameters and the getter handle (the sample function is the DASer's own method). -/
structure samplingCoordinator where
  params : dasingParams
  getter : Nat
  deriving DecidableEq, Repr

/-- Go `DASer` of `das/daser.go`.  Collaborators are handles (natural numbers); `store` is the
checkpoint store built over the datastore handle; `sampler` is `none` while it is still the
nil pointer; `cancel` tells whether the cancel function is set (non-nil).  The fields
`subscriber` and `subscriberDone` hold fresh objects without content and are left out. -/
structure DASer where
  params : dasingParams
  da : Nat
  bcast : Nat
  hsub : Nat
  getter : Nat
  sampler : Option samplingCoordinator
  store : Nat
  cancel : Bool
  running : Int
  deriving DecidableEq, Repr

/-- Go `Option` of `das/daser.go` (`func(*DASer)`), renamed to keep Lean's `Option` usable. -/
abbrev DASerOption := DASer → DASer

/-- Go `WithParamSamplingRange`: stores `uint(samplingRange)`. -/
def WithParamSamplingRange (samplingRange : Int) : DASerOption := fun d =>
  { d with params := { d.params with samplingRange := uintOfInt samplingRange } }

/-- Go `WithParamConcurrencyLimit`: stores `uint(concurrencyLimit)`. -/
def WithParamConcurrencyLimit (concurrencyLimit : Int) : DASerOption := fun d =>
  { d with params := { d.params with concurrencyLimit := uintOfInt concurrencyLimit } }

/-- Go `WithParamBackgroundStoreInterval`. -/
def WithParamBackgroundStoreInterval (bgStoreInterval : Int) : DASerOption := fun d =>
  { d with params := { d.params with bgStoreInterval := bgStoreInterval } }

/-- Go `WithParamPriorityQueueSize`: stores `uint(priorityQueueSize)`. -/
def WithParamPriorityQueueSize (priorityQueueSize : Int) : DASerOption := fun d =>
  { d with params := { d.params with priorityQueueSize := uintOfInt priorityQueueSize } }

/-- Go `WithParamGenesisHeight`. -/
def WithParamGenesisHeight (genesisHeight : Nat) : DASerOption := fun d =>
  { d with params := { d.params with genesisHeight := genesisHeight } }

/-- Go `NewDASer` of `das/daser.go`: zero-valued parameters, the options applied in order, then
the sampling coordinator built from the resulting parameters. -/
def NewDASer (da hsub getter dstore bcast : Nat) (options : List DASerOption) : DASer :=
  let d0 : DASer :=
    { params := { samplingRange := 0, concurrencyLimit := 0, bgStoreInterval := 0,
                  priorityQueueSize := 0, genesisHeight := 0 }
      da := da, bcast := bcast, hsub := hsub, getter := getter
      sampler := none, store := dstore, cancel := false, running := 0 }
  let d1 := options.foldl (fun d applyOpt => applyOpt d) d0
  { d1 with sampler := some { params := d1.params, getter := getter } }

/-- One call of a collaborator made by `Start` or `Stop`, with what it was given and what
it returned. -/
inductive Event where
  /-- Call `d.hsub.Subscribe()` and its error. -/
  | subscribe (err : Option Err)
  /-- Call `d.store.load(ctx)`: the loaded checkpoint, or `none` when it returned an error. -/
  | load (cp : Option checkpoint)
  /-- Call `d.getter.Head(ctx)`: the height of the head, or `none` when it returned an error. -/
  | head (height : Option Int)
  /-- Statement `go d.sampler.run(runCtx, cp)`. -/
  | goSamplerRun (cp : checkpoint)
  /-- Statement `go d.subscriber.run(runCtx, sub, d.sampler.listen)`. -/
  | goSubscriberRun
  /-- Statement `go d.store.runBackgroundStore(runCtx, interval, d.sampler.getCheckpoint)`. -/
  | goBackgroundStore (interval : Int)
  /-- Call `d.sampler.getCheckpoint(ctx)` and both of its results. -/
  | getCheckpoint (cp : checkpoint) (err : Option Err)
  /-- Call `d.store.store(ctx, cp)` and its error. -/
  | store (cp : checkpoint) (err : Option Err)
  /-- Call `d.cancel()`. -/
  | cancel
  /-- Call `d.sampler.wait(ctx)` and its error. -/
  | samplerWait (err : Option Err)
  /-- Call `d.sampler.state.unsafeStats()`. -/
  | unsafeStats
  /-- Call `d.store.wait(ctx)` and its error. -/
  | storeWait (err : Option Err)
  /-- Call `d.subscriber.wait(ctx)` and its error. -/
  | subscriberWait (err : Option Err)
  deriving DecidableEq, Repr

/-- How a call ended: it returned an error value (`none` is `nil`), or it panicked. -/
inductive Outcome where
  | returned (err : Option Err)
  | panicked
  deriving DecidableEq, Repr

/-- Outcomes of the collaborator calls of one `Start`. -/
structure StartEnv where
  /-- Error of `d.hsub.Subscribe()`. -/
  subscribe : Option Err
  /-- Result of `d.store.load(ctx)`, `none` when it returns an error. -/
  load : Option checkpoint
  /-- Height (an `int64`) of the header returned by `d.getter.Head(ctx)`, `none` when it
  returns an error. -/
  head : Option Int

/-- Go `DASer.Start` of `das/daser.go`: the DASer after the call, the returned error and the
trace of collaborator calls, in order.  The conversion `uint64(d.params.genesisHeight)` is
the identity, `uint64(h.Height)` is the two's complement reinterpretation. -/
def DASer.Start (env : StartEnv) (d : DASer) : DASer × Option Err × List Event :=
  -- atomic.CompareAndSwapInt32(&d.running, 0, 1)
  if d.running ≠ 0 then (d, some Err.alreadyStarted, [])
  else
    let d1 := { d with running := 1 }
    match env.subscribe with
    | some err => (d1, some err, [Event.subscribe (some err)])
    | none =>
      let loaded : checkpoint × List Event :=
        match env.load with
        | some cp => (cp, [Event.load (some cp)])
        | none =>
          let cp : checkpoint :=
            { SampleFrom := d1.params.genesisHeight
              NetworkHead := d1.params.genesisHeight
              Failed := [], Workers := [] }
          match env.head with
          | some h => ({ cp with NetworkHead := uintOfInt h }, [Event.load none, Event.head (some h)])
          | none => (cp, [Event.load none, Event.head none])
      ({ d1 with cancel := true }, none,
        [Event.subscribe none] ++ loaded.2 ++
          [Event.goSamplerRun loaded.1, Event.goSubscriberRun,
           Event.goBackgroundStore d1.params.bgStoreInterval])

/-- Outcomes of the collaborator calls of one `Stop`; `Stats` is the type returned by
`unsafeStats`, which is declared outside the embedded files. -/
structure StopEnv (Stats : Type) where
  /-- Results of `d.sampler.getCheckpoint(ctx)`. -/
  getCheckpoint : checkpoint × Option Err
  /-- Error of the first `d.store.store`. -/
  storeFirst : Option Err
  /-- Error of `d.sampler.wait(ctx)`. -/
  samplerWait : Option Err
  /-- Result of `d.sampler.state.unsafeStats()` once the wait has returned. -/
  stats : Stats
  /-- Error of the second `d.store.store`. -/
  storeFinal : Option Err
  /-- Error of `d.store.wait(ctx)`. -/
  storeWait : Option Err
  /-- Error of `d.subscriber.wait(ctx)`. -/
  subscriberWait : Option Err

/-- Go `DASer.Stop` of `das/daser.go`; `newCheckpoint` is the function of that name of package
`das`, declared outside the embedded files and taken as a parameter.  Calling a nil
`d.cancel` panics. -/
def DASer.Stop {Stats : Type} (newCheckpoint : Stats → checkpoint) (env : StopEnv Stats)
    (d : DASer) : DASer × Outcome × List Event :=
  -- atomic.CompareAndSwapInt32(&d.running, 1, 0)
  if d.running ≠ 1 then (d, Outcome.returned none, [])
  else
    let d1 := { d with running := 0 }
    let tr1 := [Event.getCheckpoint env.getCheckpoint.1 env.getCheckpoint.2,
                Event.store env.getCheckpoint.1 env.storeFirst]
    if d1.cancel = false then (d1, Outcome.panicked, tr1)
    else
      match env.samplerWait with
      | some err =>
        (d1, Outcome.returned (some (Err.forceQuit err)),
          tr1 ++ [Event.cancel, Event.samplerWait (some err)])
      | none =>
        let tr2 := tr1 ++ [Event.cancel, Event.samplerWait none, Event.unsafeStats,
                           Event.store (newCheckpoint env.stats) env.storeFinal]
        match env.storeWait with
        | some err =>
          (d1, Outcome.returned (some (Err.forceQuitWithErr err)), tr2 ++ [Event.storeWait (some err)])
        | none =>
          (d1, Outcome.returned env.subscriberWait,
            tr2 ++ [Event.storeWait none, Event.subscriberWait env.subscriberWait])

/-- Whether an event is the call of `d.sampler.wait`. -/
def Event.isSamplerWait : Event → Bool
  | Event.samplerWait _ => true
  | _ => false

/-- The part of a trace that follows the return of the first `d.sampler.wait`. -/
def eventsAfterWait (tr : List Event) : List Event :=
  (tr.dropWhile (fun e => !e.isSamplerWait)).drop 1

/-- The checkpoints handed to `d.sampler.run` in a trace, in order. -/
def runCheckpoints (tr : List Event) : List checkpoint :=
  tr.filterMap (fun e => match e with
    | Event.goSamplerRun cp => some cp
    | _ => none)

/-- The checkpoints written in a trace, in order: one per call of `d.store.store`. -/
def checkpointWrites (tr : List Event) : List checkpoint :=
  tr.filterMap (fun e => match e with
    | Event.store cp _ => some cp
    | _ => none)

end das

namespace daser

/-- The option list provided inside `ConstructModule` of `nodebuilder/daser/module.go`
(`func(c Config) []das.Option`). -/
def ConstructModule.options (c : Config) : List das.DASerOption :=
  [ das.WithParamSamplingRange (intOfUint c.SamplingRange),
    das.WithParamConcurrencyLimit (intOfUint c.ConcurrencyLimit),
    das.WithParamPriorityQueueSize (intOfUint c.PriorityQueueSize),
    das.WithParamBackgroundStoreInterval c.BackgroundStoreInterval ]

/-- Go `NewDASer` of `nodebuilder/daser/daser.go`: forwards to `das.NewDASer`. -/
def NewDASer (da hsub store batching fraudService : Nat) (options : List das.DASerOption) :
    das.DASer :=
  das.NewDASer da hsub store batching fraudService options

end daser

namespace das

/-- Type `sampleFn` of `das/daser.go`, as a state transformer: the header is given by its
`Height` field (an `int64`), the context is live, `σ` is the state the function closes over. -/
abbrev sampleFn (σ : Type) := σ → Int → σ × Option Err

namespace checkOrder

/-- First loop of `checkOrder.addInterval`: `for end >= start { append(start); start++ }`. -/
def addIntervalUp : Nat → List Nat → Nat → Nat → Option (List Nat)
  | 0, _, _, _ => none
  | fuel + 1, queue, start, end_ =>
    if end_ ≥ start then addIntervalUp fuel (queue ++ [start]) (add64 start 1) end_
    else some queue

/-- Second loop of `checkOrder.addInterval`:
`for start >= end { append(start); if start == 0 { return }; start-- }`. -/
def addIntervalDown : Nat → List Nat → Nat → Nat → Option (List Nat)
  | 0, _, _, _ => none
  | fuel + 1, queue, start, end_ =>
    if start ≥ end_ then
      if start = 0 then some (queue ++ [start])
      else addIntervalDown fuel (queue ++ [start]) (sub64 start 1) end_
    else some queue

/-- Go `checkOrder.addInterval` of `das/coordinator_test.go`, on the queue of the receiver. -/
def addInterval (fuel : Nat) (queue : List Nat) (start end_ : Nat) : Option (List Nat) :=
  if end_ > start then addIntervalUp fuel queue start end_
  else addIntervalDown fuel queue start end_

/-- Go `checkOrder.addStacks` of `das/coordinator_test.go`: the returned value and the queue. -/
def addStacks : Nat → List Nat → Nat → Nat → Nat → Option (Nat × List Nat)
  | 0, _, _, _, _ => none
  | fuel + 1, queue, start, end_, stackSize =>
    let inner : Option (Nat × List Nat) :=
      if sub64 (add64 start stackSize) 1 < end_ then
        addStacks fuel queue (add64 start stackSize) end_ stackSize
      else some (end_, queue)
    match inner with
    | none => none
    | some (end1, queue1) =>
      let start1 := if start > end1 then end1 else start
      match addInterval fuel queue1 start1 end1 with
      | none => none
      | some queue2 => some (sub64 start1 1, queue2)

/-- Go `checkOrder.middleWare` of `das/coordinator_test.go`: the state is the queue of the
receiver paired with the state of the wrapped function. -/
def middleWare {σ : Type} (out : sampleFn σ) : sampleFn (List Nat × σ) := fun st h =>
  match st.1 with
  | expected :: rest =>
    if expected ≠ uintOfInt h then (st, some (Err.expectedHeight expected h))
    else
      let r := out st.2 h
      ((rest, r.1), r.2)
  | [] =>
    let r := out st.2 h
    (([], r.1), r.2)

end checkOrder

/-- The expected order built by the test "prioritize newly discovered over known" of
`TestCoordinator`: `newCheckOrder().addInterval(sampleFrom, samplingRange)`, then
`addStacks(networkHead+1, toBeDiscovered, samplingRange)`, then
`addInterval(samplingRange+1, toBeDiscovered)`. -/
def prioritizeOrder (fuel samplingRange sampleFrom networkHead toBeDiscovered : Nat) :
    Option (List Nat) :=
  match checkOrder.addInterval fuel [] sampleFrom samplingRange with
  | none => none
  | some q1 =>
    match checkOrder.addStacks fuel q1 (add64 networkHead 1) toBeDiscovered samplingRange with
    | none => none
    | some (_, q2) => checkOrder.addInterval fuel q2 (add64 samplingRange 1) toBeDiscovered

/-- Calls a sample function on a sequence of headers, one after the other, and collects the
returned errors. -/
def callAll {σ : Type} (f : sampleFn σ) : σ → List Int → σ × List (Option Err)
  | s, [] => (s, [])
  | s, h :: hs =>
    let r := f s h
    let rest := callAll f r.1 hs
    (rest.1, r.2 :: rest.2)

/-- A wrapped sample function that always succeeds and keeps no state. -/
def sampleOk : sampleFn Unit := fun s _ => (s, none)

/-- The heights `lo, lo+1, …, hi` (empty when `hi < lo`). -/
def ascending (lo hi : Nat) : List Nat := List.range' lo (hi + 1 - lo)

/-- The heights `hi, hi-1, …, lo` (empty when `hi < lo`). -/
def descending (hi lo : Nat) : List Nat := (ascending lo hi).reverse

/-- The buckets `[start + k*stackSize .. min(start + (k+1)*stackSize - 1, end)]`, from the
highest `k` down to `k = 0`, each in ascending order. -/
def stackBuckets (start end_ stackSize : Nat) : List (List Nat) :=
  (List.range ((end_ - start) / stackSize + 1)).reverse.map
    (fun k => ascending (start + k * stackSize) (min (start + (k + 1) * stackSize - 1) end_))

end das

/-- Go `int` arithmetic: the value of an integer expression after wrap-around to 64 bits,
two's complement. -/
def wrapInt (x : Int) : Int := (x + 2 ^ 63) % 2 ^ 64 - 2 ^ 63

/-- Read `m[k]` of a Go map with `int` values, kept as an association list: a missing key
reads as the zero value. -/
def mapGet {κ : Type} [DecidableEq κ] (m : List (κ × Int)) (k : κ) : Int :=
  match m.lookup k with
  | some v => v
  | none => 0

/-- Statement `m[k]++` on a Go map with `int` values: a missing key is created from the zero
value, and the increment wraps like every `int` addition. -/
def mapIncr {κ : Type} [DecidableEq κ] : List (κ × Int) → κ → List (κ × Int)
  | [], k => [(k, wrapInt (0 + 1))]
  | (k', v) :: rest, k =>
    if k' = k then (k', wrapInt (v + 1)) :: rest else (k', v) :: mapIncr rest k

namespace das

/-- Go `onceMiddleWare` of `das/coordinator_test.go`: the state is the map `db` the closure
captures (keys are `h.Height`) paired with the state of the wrapped function. -/
def onceMiddleWare {σ : Type} (out : sampleFn σ) : sampleFn (List (Int × Int) × σ) :=
  fun st h =>
    let db := mapIncr st.1 h
    if mapGet db h > 1 then ((db, st.2), some (Err.sampledTwice h))
    else
      let r := out st.2 h
      ((db, r.1), r.2)

/-- A sample function that records, in front of the state of `out`, every header it is
invoked with, and otherwise behaves as `out`. -/
def logCalls {σ : Type} (out : sampleFn σ) : sampleFn (List Int × σ) := fun st h =>
  let r := out st.2 h
  ((st.1 ++ [h], r.1), r.2)

/-- Go `mockSampler` of `das/coordinator_test.go`.  The embedded `checkpoint` is a field;
`bornToFail` lists the keys of the map (all mapped to `true`); `done` is the map of counters;
`finishedClosed` tells whether the channel `finishedCh` has been closed.  The mutex is left
out: calls are taken one after the other. -/
structure mockSampler where
  checkpoint : checkpoint
  bornToFail : List Nat
  done : List (Nat × Int)
  isFinished : Bool
  finishedClosed : Bool
  deriving DecidableEq, Repr

/-- Go `newMockSampler`. -/
def newMockSampler (sampledBefore sampleTo : Nat) (bornToFail : List Nat) : mockSampler :=
  { checkpoint := { SampleFrom := sampledBefore, NetworkHead := sampleTo,
                    Failed := [], Workers := [] }
    bornToFail := bornToFail
    done := []
    isFinished := false
    finishedClosed := false }

/-- Read `m.Failed[height]` of the checkpoint's map, zero for a missing key. -/
def failedCount (cp : checkpoint) (height : Nat) : Nat :=
  match cp.Failed.lookup height with
  | some n => n
  | none => 0

/-- Go `mockSampler.sample` with a live context (`ctx.Err()` is nil). -/
def mockSampler.sample : sampleFn mockSampler := fun m h =>
  let height := uintOfInt h
  let done := mapIncr m.done height
  let fire : Bool :=
    decide ((done.length : Int) >
      intOfUint (sub64 m.checkpoint.NetworkHead m.checkpoint.SampleFrom)) && !m.isFinished
  let m1 : mockSampler :=
    if fire then { m with done := done, isFinished := true, finishedClosed := true }
    else { m with done := done }
  if height ∈ m1.bornToFail then (m1, some Err.bornToFail)
  else if (height > m1.checkpoint.NetworkHead ∨ height < m1.checkpoint.SampleFrom) ∧
      failedCount m1.checkpoint height = 0 then
    (m1, some (Err.outOfRange h m1.checkpoint.SampleFrom m1.checkpoint.NetworkHead))
  else (m1, none)

/-- The sampler of the test "failed should retry on restart" of `TestCoordinator`, for a
network head `networkHead`: `newMockSampler(50, networkHead, 16)` whose checkpoint is given
the map `failedLastRun`. -/
def retrySampler (networkHead : Nat) : mockSampler :=
  let m := newMockSampler 50 networkHead [16]
  { m with checkpoint :=
      { m.checkpoint with
        Failed := [(4, 1), (8, 2), (15, 1), (16, 1), (23, 1), (42, 1), (50 - 1, 1)] } }

/-- Heights of a run of `retrySampler 500` that stops short of the range: the seven failed
heights of the checkpoint, retried first, then the heights `50 … 493` of the range. -/
def retryHeights : List Nat := [4, 8, 15, 16, 23, 42, 49] ++ List.range' 50 444

/-- One call on a DASer: `Start` or `Stop`, with the outcomes of its collaborator calls. -/
inductive Call (Stats : Type) where
  | start (env : StartEnv)
  | stop (env : StopEnv Stats)

/-- A sequence of `Start` and `Stop` calls on a DASer, in order: the DASer after the last
executed call and the outcome of each executed call.  Nothing is executed after a panic. -/
def DASer.calls {Stats : Type} (newCheckpoint : Stats → checkpoint) :
    DASer → List (Call Stats) → DASer × List Outcome
  | d, [] => (d, [])
  | d, Call.start env :: rest =>
    let r := d.Start env
    let after := DASer.calls newCheckpoint r.1 rest
    (after.1, Outcome.returned r.2.1 :: after.2)
  | d, Call.stop env :: rest =>
    let r := d.Stop newCheckpoint env
    match r.2.1 with
    | Outcome.panicked => (r.1, [Outcome.panicked])
    | Outcome.returned err =>
      let after := DASer.calls newCheckpoint r.1 rest
      (after.1, Outcome.returned err :: after.2)

end das

namespace daser

/-- C1: `Validate` returns `ErrNegativeInterval` exactly when `BackgroundStoreInterval ≤ 0`
and `nil` otherwise; the result does not depend on any other field and the configuration is
left unchanged. -/
theorem Validate_contract (cfg : Config) :
    ((cfg.Validate).2 = some Err.negativeInterval ↔ cfg.BackgroundStoreInterval ≤ 0) ∧
    ((cfg.Validate).2 = none ↔ ¬ cfg.BackgroundStoreInterval ≤ 0) ∧
    (∀ sr cl pq gh : Nat,
      (Config.Validate { SamplingRange := sr, ConcurrencyLimit := cl,
                         BackgroundStoreInterval := cfg.BackgroundStoreInterval,
                         PriorityQueueSize := pq, GenesisHeight := gh }).2 = (cfg.Validate).2) ∧
    (cfg.Validate).1 = cfg := by
  unfold Config.Validate
  by_cases h : cfg.BackgroundStoreInterval ≤ 0 <;> simp [h]

/-- C2: `DefaultConfig` carries sampling range 100, concurrency limit 16, a background store
interval of ten minutes (in nanoseconds), priority queue size 64 and genesis height 1, and it
passes `Validate`. -/
theorem DefaultConfig_values :
    DefaultConfig.SamplingRange = 100 ∧
    DefaultConfig.ConcurrencyLimit = 16 ∧
    DefaultConfig.BackgroundStoreInterval = 600000000000 ∧
    DefaultConfig.BackgroundStoreInterval = 10 * Minute ∧
    DefaultConfig.PriorityQueueSize = 64 ∧
    DefaultConfig.GenesisHeight = 1 ∧
    (DefaultConfig.Validate).2 = none := by
  refine ⟨rfl, rfl, ?_, rfl, rfl, rfl, ?_⟩ <;> decide

end daser

namespace das

/-- C3: on a DASer whose running flag is already 1, `Start` returns the "already started"
error, makes no collaborator call (no subscription, no checkpoint load, no spawned routine)
and leaves every field as it was; on a DASer whose running flag is 0 and whose `Subscribe`
succeeds, `Start` returns nil and the running flag is 1 afterwards. -/
theorem Start_running_flag (env : StartEnv) (d : DASer) :
    (d.running = 1 → d.Start env = (d, some Err.alreadyStarted, [])) ∧
    (d.running = 0 → env.subscribe = none →
      (d.Start env).2.1 = none ∧ (d.Start env).1.running = 1) := by
  constructor
  · intro h
    simp [DASer.Start, h]
  · intro h hs
    simp [DASer.Start, h, hs]

/-- C3, at a freshly built DASer (flag 0, subscription succeeding) and at the same DASer with
the flag raised. -/
theorem Start_running_flag_witness :
    (let d : DASer := { NewDASer 1 2 3 4 5 [] with running := 1 }
     d.Start ⟨none, none, none⟩ = (d, some Err.alreadyStarted, [])) ∧
    ((DASer.Start ⟨none, none, some 7⟩ (NewDASer 1 2 3 4 5 [])).2.1 = none ∧
     (DASer.Start ⟨none, none, some 7⟩ (NewDASer 1 2 3 4 5 [])).1.running = 1) :=
  ⟨(Start_running_flag ⟨none, none, none⟩ { NewDASer 1 2 3 4 5 [] with running := 1 }).1 rfl,
   (Start_running_flag ⟨none, none, some 7⟩ (NewDASer 1 2 3 4 5 [])).2 rfl rfl⟩

/-- C4, as stated, fails: with genesis height 1, no stored checkpoint and a header getter
whose head is at height 5, `Start` hands `{SampleFrom: 1, NetworkHead: 5}` to the
coordinator's run, not the synthesised `{1, 1, {}, []}`. -/
theorem Start_fresh_checkpoint_counterexample :
    runCheckpoints
        (DASer.Start ⟨none, none, some 5⟩ (NewDASer 0 0 0 0 0 [WithParamGenesisHeight 1])).2.2
      = [{ SampleFrom := 1, NetworkHead := 5, Failed := [], Workers := [] }] ∧
    ({ SampleFrom := 1, NetworkHead := 1, Failed := [], Workers := [] } : checkpoint) ∉
      runCheckpoints
        (DASer.Start ⟨none, none, some 5⟩ (NewDASer 0 0 0 0 0 [WithParamGenesisHeight 1])).2.2 := by
  decide

/-- C4, amended: on a DASer with flag 0, genesis height `g` and a succeeding `Subscribe`,
exactly one checkpoint is handed to the coordinator's run.  When the load fails it has
`SampleFrom = g`, empty `Failed` and `Workers`, and `NetworkHead = g` if `Head` fails too,
`NetworkHead = uint64(h.Height)` if `Head` returns the header `h`; when the load succeeds it
is the loaded checkpoint, unchanged. -/
theorem Start_checkpoint_handed_to_run (env : StartEnv) (d : DASer)
    (hrun : d.running = 0) (hsub : env.subscribe = none) :
    (env.load = none → env.head = none →
      runCheckpoints (d.Start env).2.2 =
        [{ SampleFrom := d.params.genesisHeight, NetworkHead := d.params.genesisHeight,
           Failed := [], Workers := [] }]) ∧
    (∀ h, env.load = none → env.head = some h →
      runCheckpoints (d.Start env).2.2 =
        [{ SampleFrom := d.params.genesisHeight, NetworkHead := uintOfInt h,
           Failed := [], Workers := [] }]) ∧
    (∀ cp, env.load = some cp → runCheckpoints (d.Start env).2.2 = [cp]) := by
  refine ⟨?_, ?_, ?_⟩
  · intro hl hh
    simp [DASer.Start, hrun, hsub, hl, hh, runCheckpoints]
  · intro h hl hh
    simp [DASer.Start, hrun, hsub, hl, hh, runCheckpoints]
  · intro cp hl
    simp [DASer.Start, hrun, hsub, hl, runCheckpoints]

/-- C4 amended, at genesis height 1: head unknown, head at height 5, and a stored
checkpoint `{50, 500}`. -/
theorem Start_checkpoint_handed_to_run_witness :
    runCheckpoints
        (DASer.Start ⟨none, none, none⟩ (NewDASer 0 0 0 0 0 [WithParamGenesisHeight 1])).2.2
      = [{ SampleFrom := 1, NetworkHead := 1, Failed := [], Workers := [] }] ∧
    runCheckpoints
        (DASer.Start ⟨none, none, some 5⟩ (NewDASer 0 0 0 0 0 [WithParamGenesisHeight 1])).2.2
      = [{ SampleFrom := 1, NetworkHead := uintOfInt 5, Failed := [], Workers := [] }] ∧
    runCheckpoints
        (DASer.Start ⟨none, some ⟨50, 500, [], []⟩, some 5⟩
          (NewDASer 0 0 0 0 0 [WithParamGenesisHeight 1])).2.2
      = [⟨50, 500, [], []⟩] :=
  ⟨(Start_checkpoint_handed_to_run ⟨none, none, none⟩
      (NewDASer 0 0 0 0 0 [WithParamGenesisHeight 1]) rfl rfl).1 rfl rfl,
   (Start_checkpoint_handed_to_run ⟨none, none, some 5⟩
      (NewDASer 0 0 0 0 0 [WithParamGenesisHeight 1]) rfl rfl).2.1 5 rfl rfl,
   (Start_checkpoint_handed_to_run ⟨none, some ⟨50, 500, [], []⟩, some 5⟩
      (NewDASer 0 0 0 0 0 [WithParamGenesisHeight 1]) rfl rfl).2.2 ⟨50, 500, [], []⟩ rfl⟩

end das

namespace daser

/-- C5, what the code does: the option list of `ConstructModule` holds no
`WithParamGenesisHeight`, so the DASer built from it has `params.genesisHeight = 0` whatever
`c.GenesisHeight` is; with `DefaultConfig` (genesis height 1) a fresh start, without stored
checkpoint and without head, hands `{SampleFrom: 0, NetworkHead: 0}` to the run. -/
theorem ConstructModule_drops_genesisHeight :
    (∀ (c : Config) (da hsub store batching fraudService : Nat),
      (NewDASer da hsub store batching fraudService (ConstructModule.options c)).params.genesisHeight
        = 0) ∧
    DefaultConfig.GenesisHeight = 1 ∧
    das.runCheckpoints
        (das.DASer.Start ⟨none, none, none⟩
          (NewDASer 0 0 0 0 0 (ConstructModule.options DefaultConfig))).2.2
      = [{ SampleFrom := 0, NetworkHead := 0, Failed := [], Workers := [] }] := by
  refine ⟨?_, rfl, ?_⟩
  · intro c da hsub store batching fraudService
    rfl
  · decide

end daser

/-- Converting an unsigned 64-bit value to `int` and back to `uint` gives the value back. -/
theorem uintOfInt_intOfUint (x : Nat) (hx : x < u64) : uintOfInt (intOfUint x) = x := by
  unfold uintOfInt intOfUint u64 at *
  rw [Nat.mod_eq_of_lt hx]
  split <;> omega

namespace daser

/-- C10: when `SamplingRange`, `ConcurrencyLimit` and `PriorityQueueSize` of `c` fit in a
non-negative `int` (are below `2 ^ 63`), the DASer built by `NewDASer` from the option list of
`ConstructModule` has these three values and `c.BackgroundStoreInterval` in its `params`; and
each `WithParam…` option leaves every field of the DASer but its own field of `params`
unchanged. -/
theorem ConstructModule_params (c : Config) (da hsub store batching fraudService : Nat)
    (hsr : c.SamplingRange < 2 ^ 63) (hcl : c.ConcurrencyLimit < 2 ^ 63)
    (hpq : c.PriorityQueueSize < 2 ^ 63) :
    let d := NewDASer da hsub store batching fraudService (ConstructModule.options c)
    (d.params.samplingRange = c.SamplingRange ∧
     d.params.concurrencyLimit = c.ConcurrencyLimit ∧
     d.params.priorityQueueSize = c.PriorityQueueSize ∧
     d.params.bgStoreInterval = c.BackgroundStoreInterval) ∧
    (∀ (x : Int) (d : das.DASer), das.WithParamSamplingRange x d =
      { d with params :=
          { d.params with samplingRange := (das.WithParamSamplingRange x d).params.samplingRange } }) ∧
    (∀ (x : Int) (d : das.DASer), das.WithParamConcurrencyLimit x d =
      { d with params :=
          { d.params with
            concurrencyLimit := (das.WithParamConcurrencyLimit x d).params.concurrencyLimit } }) ∧
    (∀ (x : Int) (d : das.DASer), das.WithParamBackgroundStoreInterval x d =
      { d with params :=
          { d.params with
            bgStoreInterval := (das.WithParamBackgroundStoreInterval x d).params.bgStoreInterval } }) ∧
    (∀ (x : Int) (d : das.DASer), das.WithParamPriorityQueueSize x d =
      { d with params :=
          { d.params with
            priorityQueueSize := (das.WithParamPriorityQueueSize x d).params.priorityQueueSize } }) ∧
    (∀ (x : Nat) (d : das.DASer), das.WithParamGenesisHeight x d =
      { d with params :=
          { d.params with genesisHeight := (das.WithParamGenesisHeight x d).params.genesisHeight } }) := by
  have h1 : c.SamplingRange < u64 := by unfold u64; omega
  have h2 : c.ConcurrencyLimit < u64 := by unfold u64; omega
  have h3 : c.PriorityQueueSize < u64 := by unfold u64; omega
  refine ⟨⟨?_, ?_, ?_, ?_⟩, ?_, ?_, ?_, ?_, ?_⟩
  · exact uintOfInt_intOfUint _ h1
  · exact uintOfInt_intOfUint _ h2
  · exact uintOfInt_intOfUint _ h3
  · rfl
  all_goals intro x d; rfl

/-- C10 at `DefaultConfig`: the built DASer has sampling range 100, concurrency limit 16,
priority queue size 64 and a background store interval of ten minutes. -/
theorem ConstructModule_params_witness :
    (NewDASer 1 2 3 4 5 (ConstructModule.options DefaultConfig)).params.samplingRange = 100 ∧
    (NewDASer 1 2 3 4 5 (ConstructModule.options DefaultConfig)).params.concurrencyLimit = 16 ∧
    (NewDASer 1 2 3 4 5 (ConstructModule.options DefaultConfig)).params.priorityQueueSize = 64 ∧
    (NewDASer 1 2 3 4 5 (ConstructModule.options DefaultConfig)).params.bgStoreInterval
      = 600000000000 :=
  (ConstructModule_params DefaultConfig 1 2 3 4 5 (by decide) (by decide) (by decide)).1

end daser

namespace das

/-- C6: for a `Stop` on a DASer whose running flag is 1, read on the ordered trace of its
collaborator calls (a write is a call of `d.store.store`).  If `d.sampler.wait` returned an
error, `Stop` returns the force-quit error wrapping it and no checkpoint is written after the
wait.  If `d.sampler.wait` returned nil, exactly one checkpoint is written after the wait, it
is `newCheckpoint` of the stats of the coordinator state, and it is the last write of the
whole trace.  When the cancel function is set, the wait is indeed called. -/
theorem Stop_final_checkpoint {Stats : Type} (newCheckpoint : Stats → checkpoint)
    (env : StopEnv Stats) (d : DASer) (hrun : d.running = 1) :
    (∀ err, Event.samplerWait (some err) ∈ (d.Stop newCheckpoint env).2.2 →
      (d.Stop newCheckpoint env).2.1 = Outcome.returned (some (Err.forceQuit err)) ∧
      checkpointWrites (eventsAfterWait (d.Stop newCheckpoint env).2.2) = []) ∧
    (Event.samplerWait none ∈ (d.Stop newCheckpoint env).2.2 →
      checkpointWrites (eventsAfterWait (d.Stop newCheckpoint env).2.2)
        = [newCheckpoint env.stats] ∧
      (checkpointWrites (d.Stop newCheckpoint env).2.2).getLast?
        = some (newCheckpoint env.stats)) ∧
    (d.cancel = true → Event.samplerWait env.samplerWait ∈ (d.Stop newCheckpoint env).2.2) := by
  unfold DASer.Stop
  simp only [hrun, ne_eq, not_true_eq_false, if_false]
  cases hc : d.cancel
  · simp
  · cases hw : env.samplerWait with
    | some e =>
      simp [eventsAfterWait, checkpointWrites, Event.isSamplerWait]
    | none =>
      cases hsw : env.storeWait <;>
        simp [eventsAfterWait, checkpointWrites, Event.isSamplerWait]

/-- C6 on a started DASer, with the identity as `newCheckpoint`: a failing wait, and a
succeeding wait after which `{501, 500}` is the one checkpoint written. -/
theorem Stop_final_checkpoint_witness :
    (let d : DASer := { NewDASer 1 2 3 4 5 [] with running := 1, cancel := true }
     let env : StopEnv checkpoint :=
       ⟨(⟨7, 500, [], []⟩, none), none, some (Err.external 1), ⟨501, 500, [], []⟩, none, none, none⟩
     (d.Stop id env).2.1 = Outcome.returned (some (Err.forceQuit (Err.external 1))) ∧
     checkpointWrites (eventsAfterWait (d.Stop id env).2.2) = []) ∧
    (let d : DASer := { NewDASer 1 2 3 4 5 [] with running := 1, cancel := true }
     let env : StopEnv checkpoint :=
       ⟨(⟨7, 500, [], []⟩, none), none, none, ⟨501, 500, [], []⟩, none, none, none⟩
     checkpointWrites (eventsAfterWait (d.Stop id env).2.2) = [⟨501, 500, [], []⟩] ∧
     (checkpointWrites (d.Stop id env).2.2).getLast? = some ⟨501, 500, [], []⟩) :=
  ⟨(Stop_final_checkpoint id
      ⟨(⟨7, 500, [], []⟩, none), none, some (Err.external 1), ⟨501, 500, [], []⟩, none, none, none⟩
      { NewDASer 1 2 3 4 5 [] with running := 1, cancel := true } rfl).1 (Err.external 1)
      (by decide),
   (Stop_final_checkpoint id
      ⟨(⟨7, 500, [], []⟩, none), none, none, ⟨501, 500, [], []⟩, none, none, none⟩
      { NewDASer 1 2 3 4 5 [] with running := 1, cancel := true } rfl).2.1 (by decide)⟩

end das

namespace das

/-- Go `x + 1` on `uint64` does not wrap below the maximum. -/
theorem add64_one (x : Nat) (hx : x < u64 - 1) : add64 x 1 = x + 1 := by
  unfold add64 u64 at *
  omega

/-- Go `x - 1` on `uint64` does not wrap for a positive `x`. -/
theorem sub64_one (x : Nat) (hx : x < u64) (hpos : 0 < x) : sub64 x 1 = x - 1 := by
  unfold sub64 u64 at *
  omega

/-- The ascending loop appends the `n` heights from `start` on, when `end_` is below the
maximum of `uint64` and the fuel covers the `n + 1` tests of the loop condition. -/
theorem addIntervalUp_eq (end_ : Nat) (he : end_ < u64 - 1) :
    ∀ (n fuel : Nat) (queue : List Nat) (start : Nat), end_ + 1 - start = n → n + 1 ≤ fuel →
      checkOrder.addIntervalUp fuel queue start end_ = some (queue ++ List.range' start n) := by
  intro n
  induction n with
  | zero =>
    intro fuel queue start hn hf
    obtain ⟨f, rfl⟩ : ∃ f, fuel = f + 1 := ⟨fuel - 1, by omega⟩
    have : ¬ end_ ≥ start := by omega
    simp [checkOrder.addIntervalUp, this]
  | succ n ih =>
    intro fuel queue start hn hf
    obtain ⟨f, rfl⟩ : ∃ f, fuel = f + 1 := ⟨fuel - 1, by omega⟩
    have hle : end_ ≥ start := by omega
    have hs : start < u64 - 1 := by omega
    simp only [checkOrder.addIntervalUp, hle, if_true, add64_one start hs]
    rw [ih f (queue ++ [start]) (start + 1) (by omega) (by omega)]
    simp [List.range'_succ]

/-- The descending loop appends the `n` heights from `start` down to `end_`, when the fuel
covers the `n + 1` tests of the loop condition. -/
theorem addIntervalDown_eq (end_ : Nat) :
    ∀ (n fuel : Nat) (queue : List Nat) (start : Nat), start < u64 → start + 1 - end_ = n →
      n + 1 ≤ fuel →
      checkOrder.addIntervalDown fuel queue start end_
        = some (queue ++ (List.range' end_ n).reverse) := by
  intro n
  induction n with
  | zero =>
    intro fuel queue start _ hn hf
    obtain ⟨f, rfl⟩ : ∃ f, fuel = f + 1 := ⟨fuel - 1, by omega⟩
    have : ¬ start ≥ end_ := by omega
    simp [checkOrder.addIntervalDown, this]
  | succ n ih =>
    intro fuel queue start hs hn hf
    obtain ⟨f, rfl⟩ : ∃ f, fuel = f + 1 := ⟨fuel - 1, by omega⟩
    have hle : start ≥ end_ := by omega
    have hstart : start = end_ + n := by omega
    by_cases h0 : start = 0
    · have hn0 : n = 0 := by omega
      have he0 : end_ = 0 := by omega
      subst hn0
      simp [checkOrder.addIntervalDown, h0, he0]
    · simp only [checkOrder.addIntervalDown, hle, if_true, h0, if_false,
        sub64_one start hs (by omega)]
      rw [ih f (queue ++ [start]) (start - 1) (by omega) (by omega) (by omega)]
      rw [List.range'_concat, hstart]
      simp

/-- `addInterval` on `start ≤ end_`: the heights `start … end_` are appended, provided the
ascending loop (taken when `start < end_`) cannot run into the maximum of `uint64`. -/
theorem addInterval_ascending (fuel : Nat) (queue : List Nat) (start end_ : Nat)
    (hle : start ≤ end_) (hs : start < u64) (he : start < end_ → end_ < u64 - 1)
    (hf : end_ - start + 2 ≤ fuel) :
    checkOrder.addInterval fuel queue start end_ = some (queue ++ ascending start end_) := by
  unfold checkOrder.addInterval ascending
  by_cases hlt : end_ > start
  · simp only [hlt, if_true]
    exact addIntervalUp_eq end_ (he hlt) _ fuel queue start rfl (by omega)
  · have heq : end_ = start := by omega
    subst heq
    simp only [hlt, if_false]
    rw [addIntervalDown_eq end_ 1 fuel queue end_ hs (by omega) (by omega)]
    simp

/-- C9: for every queue `q`, every `start` and every `end_` below `2 ^ 64 - 1`, `addInterval`
terminates (any fuel above the distance of the two bounds plus one suffices) and leaves `q`
followed by `start, start+1, …, end_` when `start < end_`, and `q` followed by
`start, start-1, …, end_` when `start ≥ end_` (one element when they are equal), down to 0
included without wrapping. -/
theorem addInterval_spec (fuel : Nat) (q : List Nat) (start end_ : Nat)
    (hs : start < u64) (he : end_ < u64 - 1)
    (hf : (if start < end_ then end_ - start else start - end_) + 2 ≤ fuel) :
    checkOrder.addInterval fuel q start end_ =
      some (q ++ if start < end_ then ascending start end_ else descending start end_) ∧
    (start = end_ → checkOrder.addInterval fuel q start end_ = some (q ++ [start])) := by
  have main : checkOrder.addInterval fuel q start end_ =
      some (q ++ if start < end_ then ascending start end_ else descending start end_) := by
    by_cases hlt : start < end_
    · simp only [hlt, if_true] at hf ⊢
      exact addInterval_ascending fuel q start end_ (by omega) hs (fun _ => he) hf
    · simp only [hlt, if_false] at hf ⊢
      unfold checkOrder.addInterval descending ascending
      have : ¬ end_ > start := by omega
      simp only [this, if_false]
      exact addIntervalDown_eq end_ _ fuel q start hs rfl (by omega)
  refine ⟨main, ?_⟩
  intro heq
  subst heq
  rw [main]
  simp [descending, ascending]

/-- C9 on the test `TestOrder`: `addInterval(0, 3)` then `addInterval(3, 0)` on an empty queue
gives `[0,1,2,3,3,2,1,0]`. -/
theorem addInterval_spec_witness :
    checkOrder.addInterval 5 [] 0 3 = some [0, 1, 2, 3] ∧
    checkOrder.addInterval 5 [0, 1, 2, 3] 3 0 = some [0, 1, 2, 3, 3, 2, 1, 0] :=
  ⟨(addInterval_spec 5 [] 0 3 (by decide) (by decide) (by decide)).1,
   (addInterval_spec 5 [0, 1, 2, 3] 3 0 (by decide) (by decide) (by decide)).1⟩

end das

namespace das

/-- Go `start + stackSize - 1` on `uint64` is exact as long as the true value fits. -/
theorem sub64_add64_one (start stackSize : Nat) (hk : 1 ≤ stackSize)
    (hfit : start + stackSize ≤ u64) :
    sub64 (add64 start stackSize) 1 = start + stackSize - 1 := by
  unfold sub64 add64 u64 at *
  omega

/-- A single bucket when the whole interval fits in one stack. -/
theorem stackBuckets_single (start end_ stackSize : Nat) (hk : 1 ≤ stackSize)
    (hle : start ≤ end_) (hlast : end_ ≤ start + stackSize - 1) :
    stackBuckets start end_ stackSize = [ascending start end_] := by
  have hlt : end_ - start < stackSize := by omega
  have hdiv : (end_ - start) / stackSize = 0 := Nat.div_eq_of_lt hlt
  have hr : List.range (0 + 1) = [0] := rfl
  unfold stackBuckets
  rw [hdiv, hr]
  simp only [List.reverse_singleton, List.map_cons, List.map_nil, Nat.zero_mul, Nat.add_zero,
    Nat.zero_add, Nat.one_mul]
  rw [Nat.min_eq_right hlast]

/-- Peeling the lowest bucket, which is listed last. -/
theorem stackBuckets_step (start end_ stackSize : Nat) (hk : 1 ≤ stackSize)
    (hmore : start + stackSize ≤ end_) :
    stackBuckets start end_ stackSize =
      stackBuckets (start + stackSize) end_ stackSize
        ++ [ascending start (start + stackSize - 1)] := by
  have hdiv : (end_ - start) / stackSize = (end_ - (start + stackSize)) / stackSize + 1 := by
    have h : end_ - start = end_ - (start + stackSize) + stackSize := by omega
    rw [h, Nat.add_div_right _ (by omega)]
  unfold stackBuckets
  rw [hdiv, List.range_succ_eq_map, List.reverse_cons, List.map_append, ← List.map_reverse,
    List.map_map]
  congr 1
  · apply List.map_congr_left
    intro k _
    simp only [Function.comp, Nat.succ_eq_add_one]
    have h1 : start + (k + 1) * stackSize = start + stackSize + k * stackSize := by ring
    have h2 : start + (k + 1 + 1) * stackSize = start + stackSize + (k + 1) * stackSize := by
      ring
    rw [h1, h2]
  · have h3 : min (start + stackSize - 1) end_ = start + stackSize - 1 := by
      apply Nat.min_eq_left
      omega
    simp only [List.map_cons, List.map_nil, Nat.zero_mul, Nat.add_zero, Nat.zero_add,
      Nat.one_mul]
    rw [h3]

/-- Induction along the recursion of `addStacks`: from `start` to `start + stackSize` while
a further stack fits below `end_`. -/
theorem stack_induction (end_ stackSize : Nat) (hk : 1 ≤ stackSize) (P : Nat → Prop)
    (hbase : ∀ start, start ≤ end_ → end_ ≤ start + stackSize - 1 → P start)
    (hstep : ∀ start, start + stackSize ≤ end_ → P (start + stackSize) → P start) :
    ∀ start, start ≤ end_ → P start := by
  have key : ∀ n start, end_ - start = n → start ≤ end_ → P start := by
    intro n
    induction n using Nat.strong_induction_on with
    | _ n ih =>
      intro start hn hle
      by_cases hmore : start + stackSize ≤ end_
      · exact hstep start hmore
          (ih (end_ - (start + stackSize)) (by omega) (start + stackSize) rfl (by omega))
      · exact hbase start hle (by omega)
  intro start hle
  exact key _ start rfl hle

/-- What `addStacks` computes on any queue, given fuel for the recursion and for the loops. -/
theorem addStacks_eq (end_ stackSize : Nat) (hk : 1 ≤ stackSize)
    (hfit : end_ + stackSize ≤ u64) :
    ∀ start, start ≤ end_ → 1 ≤ start → ∀ (fuel : Nat) (queue : List Nat),
      2 * (end_ - start) + 3 ≤ fuel →
      checkOrder.addStacks fuel queue start end_ stackSize =
        some (start - 1, queue ++ (stackBuckets start end_ stackSize).flatten) := by
  apply stack_induction end_ stackSize hk
    (fun start => 1 ≤ start → ∀ (fuel : Nat) (queue : List Nat),
      2 * (end_ - start) + 3 ≤ fuel →
      checkOrder.addStacks fuel queue start end_ stackSize =
        some (start - 1, queue ++ (stackBuckets start end_ stackSize).flatten))
  · intro start hle hlast hpos fuel queue hf
    obtain ⟨f, rfl⟩ : ∃ f, fuel = f + 1 := ⟨fuel - 1, by omega⟩
    have hsu : start < u64 := by omega
    have hcond : ¬ sub64 (add64 start stackSize) 1 < end_ := by
      rw [sub64_add64_one start stackSize hk (by omega)]
      omega
    have hgt : ¬ start > end_ := by omega
    simp only [checkOrder.addStacks, hcond, if_false, hgt]
    rw [addInterval_ascending f queue start end_ hle hsu (by intro h; omega) (by omega)]
    simp [stackBuckets_single start end_ stackSize hk hle hlast, sub64_one start hsu (by omega)]
  · intro start hmore ih hpos fuel queue hf
    obtain ⟨f, rfl⟩ : ∃ f, fuel = f + 1 := ⟨fuel - 1, by omega⟩
    have hsu : start < u64 := by omega
    have hcond : sub64 (add64 start stackSize) 1 < end_ := by
      rw [sub64_add64_one start stackSize hk (by omega)]
      omega
    have hadd : add64 start stackSize = start + stackSize := by
      unfold add64
      exact Nat.mod_eq_of_lt (by omega)
    have hgt : ¬ start > start + stackSize - 1 := by omega
    rw [hadd] at hcond
    simp only [checkOrder.addStacks, hadd, hcond, if_true]
    rw [ih (by omega) f queue (by omega)]
    simp only [hgt, if_false]
    rw [addInterval_ascending f _ start (start + stackSize - 1) (by omega) hsu
      (by intro h; omega) (by omega)]
    simp [stackBuckets_step start end_ stackSize hk hmore, sub64_one start hsu (by omega)]

end das

namespace das

/-- Two adjacent ascending runs make one. -/
theorem ascending_append (a b c : Nat) (hab : a ≤ b + 1) (hbc : b ≤ c) :
    ascending a b ++ ascending (b + 1) c = ascending a c := by
  unfold ascending
  have h1 : b + 1 = a + (b + 1 - a) := by omega
  have h2 : c + 1 - a = (c + 1 - (b + 1)) + (b + 1 - a) := by omega
  rw [h2]
  nth_rewrite 2 [h1]
  rw [List.range'_append_1]

/-- The buckets, concatenated, list the heights `start … end_` in some order. -/
theorem stackBuckets_perm (end_ stackSize : Nat) (hk : 1 ≤ stackSize) :
    ∀ start, start ≤ end_ →
      List.Perm (stackBuckets start end_ stackSize).flatten (ascending start end_) := by
  apply stack_induction end_ stackSize hk
    (fun start => List.Perm (stackBuckets start end_ stackSize).flatten (ascending start end_))
  · intro start hle hlast
    rw [stackBuckets_single start end_ stackSize hk hle hlast]
    simp
  · intro start hmore ih
    rw [stackBuckets_step start end_ stackSize hk hmore]
    have happ := ascending_append start (start + stackSize - 1) end_ (by omega) (by omega)
    have hs : start + stackSize - 1 + 1 = start + stackSize := by omega
    rw [hs] at happ
    rw [← happ]
    simp only [List.flatten_append, List.flatten_cons, List.flatten_nil, List.append_nil]
    exact (ih.append_right _).trans List.perm_append_comm

/-- Every height of `start … end_` occurs exactly once in the concatenated buckets, and no
other height occurs. -/
theorem stackBuckets_count (start end_ stackSize : Nat) (hk : 1 ≤ stackSize)
    (hle : start ≤ end_) (h : Nat) :
    (stackBuckets start end_ stackSize).flatten.count h
      = if start ≤ h ∧ h ≤ end_ then 1 else 0 := by
  rw [(stackBuckets_perm end_ stackSize hk start hle).count_eq]
  unfold ascending
  by_cases hin : start ≤ h ∧ h ≤ end_
  · rw [if_pos hin]
    apply List.count_eq_one_of_mem (List.nodup_range' start _)
    rw [List.mem_range'_1]
    omega
  · rw [if_neg hin]
    apply List.count_eq_zero_of_not_mem
    rw [List.mem_range'_1]
    omega

/-- The first-listed bucket holds between one and `stackSize` heights, every other bucket
exactly `stackSize`. -/
theorem stackBuckets_sizes (end_ stackSize : Nat) (hk : 1 ≤ stackSize) :
    ∀ start, start ≤ end_ →
      ∃ b rest, stackBuckets start end_ stackSize = b :: rest ∧ 1 ≤ b.length ∧
        b.length ≤ stackSize ∧ ∀ c ∈ rest, c.length = stackSize := by
  apply stack_induction end_ stackSize hk
    (fun start => ∃ b rest, stackBuckets start end_ stackSize = b :: rest ∧ 1 ≤ b.length ∧
        b.length ≤ stackSize ∧ ∀ c ∈ rest, c.length = stackSize)
  · intro start hle hlast
    refine ⟨ascending start end_, [], stackBuckets_single start end_ stackSize hk hle hlast,
      ?_, ?_, ?_⟩
    · simp only [ascending, List.length_range']
      omega
    · simp only [ascending, List.length_range']
      omega
    · intro c hc
      cases hc
  · intro start hmore ih
    obtain ⟨b, rest, hb, h1, h2, h3⟩ := ih
    refine ⟨b, rest ++ [ascending start (start + stackSize - 1)], ?_, h1, h2, ?_⟩
    · rw [stackBuckets_step start end_ stackSize hk hmore, hb]
      rfl
    · intro c hc
      rcases List.mem_append.1 hc with hc | hc
      · exact h3 c hc
      · rw [List.mem_singleton.1 hc]
        simp only [ascending, List.length_range']
        omega

/-- The recursion of `addStacks` on `(1, 2^64 - 1, 2^63)` alternates between the starts `1`
and `2^63 + 1` and never returns. -/
theorem addStacks_cycle (fuel : Nat) : ∀ queue : List Nat,
    checkOrder.addStacks fuel queue 1 (2 ^ 64 - 1) (2 ^ 63) = none ∧
    checkOrder.addStacks fuel queue (2 ^ 63 + 1) (2 ^ 64 - 1) (2 ^ 63) = none := by
  induction fuel with
  | zero =>
    intro queue
    exact ⟨rfl, rfl⟩
  | succ f ih =>
    intro queue
    have c1 : sub64 (2 ^ 63 + 1) 1 < 2 ^ 64 - 1 := by decide
    have c2 : sub64 1 1 < 2 ^ 64 - 1 := by decide
    have a1 : add64 1 (2 ^ 63) = 2 ^ 63 + 1 := by decide
    have a2 : add64 (2 ^ 63 + 1) (2 ^ 63) = 1 := by decide
    constructor
    · simp only [checkOrder.addStacks, a1, c1, if_true, (ih queue).2]
    · simp only [checkOrder.addStacks, a2, c2, if_true, (ih queue).1]

end das

namespace das

/-- C7, as stated, fails: `start = 1`, `end = 2^64 - 1`, `stackSize = 2^63` meet the stated
conditions (`start ≤ end`, `stackSize ≥ 1`, `start + stackSize` does not overflow,
`start ≥ 1`), yet `addStacks` never returns: the second level computes
`start + stackSize` as `(2^63 + 1) + 2^63`, which wraps to `1`. -/
theorem addStacks_wrap_counterexample :
    ((1 : Nat) ≤ 2 ^ 64 - 1 ∧ (1 : Nat) ≤ 2 ^ 63 ∧ 1 + 2 ^ 63 < u64 ∧ (1 : Nat) ≤ 1) ∧
    ¬ ∃ (fuel : Nat) (r : Nat × List Nat),
        checkOrder.addStacks fuel [] 1 (2 ^ 64 - 1) (2 ^ 63) = some r := by
  refine ⟨by decide, ?_⟩
  rintro ⟨fuel, r, h⟩
  rw [(addStacks_cycle fuel []).1] at h
  cases h

/-- C7, amended: for `1 ≤ start ≤ end_` and `stackSize ≥ 1` with `end_ + stackSize ≤ 2^64`
(no `start + k*stackSize - 1` computed along the recursion wraps), `addStacks` on an empty
queue terminates (any fuel of at least `2 * (end_ - start) + 3` suffices), returns
`start - 1` and leaves the concatenation of the buckets
`[start + k*stackSize .. min(start + (k+1)*stackSize - 1, end_)]` from the highest `k` down
to `0`, each ascending.  Every height of `[start..end_]` occurs exactly once and nothing else
occurs; the first-listed bucket has between 1 and `stackSize` heights and every other bucket
exactly `stackSize`. -/
theorem addStacks_spec (fuel start end_ stackSize : Nat) (hle : start ≤ end_)
    (hk : 1 ≤ stackSize) (hfit : end_ + stackSize ≤ u64) (hpos : 1 ≤ start)
    (hf : 2 * (end_ - start) + 3 ≤ fuel) :
    checkOrder.addStacks fuel [] start end_ stackSize
      = some (start - 1, (stackBuckets start end_ stackSize).flatten) ∧
    (∀ h, (stackBuckets start end_ stackSize).flatten.count h
      = if start ≤ h ∧ h ≤ end_ then 1 else 0) ∧
    (∃ b rest, stackBuckets start end_ stackSize = b :: rest ∧ 1 ≤ b.length ∧
      b.length ≤ stackSize ∧ ∀ c ∈ rest, c.length = stackSize) := by
  refine ⟨?_, ?_, ?_⟩
  · have h := addStacks_eq end_ stackSize hk hfit start hle hpos fuel [] hf
    simpa using h
  · intro h
    exact stackBuckets_count start end_ stackSize hk hle h
  · exact stackBuckets_sizes end_ stackSize hk start hle

/-- C7 on the test `TestStack`: `addStacks(10, 20, 3)` on an empty queue returns 9 and leaves
`[19,20, 16,17,18, 13,14,15, 10,11,12]`. -/
theorem addStacks_spec_witness :
    checkOrder.addStacks 23 [] 10 20 3
      = some (9, [19, 20, 16, 17, 18, 13, 14, 15, 10, 11, 12]) :=
  (addStacks_spec 23 10 20 3 (by decide) (by decide) (by decide) (by decide) (by decide)).1

/-- The order built by the test "prioritize newly discovered over known", for any fuel of
at least 21. -/
theorem prioritizeOrder_eq (fuel : Nat) (hf : 21 ≤ fuel) :
    prioritizeOrder fuel 4 1 10 20 =
      some [1, 2, 3, 4, 19, 20, 15, 16, 17, 18, 11, 12, 13, 14, 5, 6, 7, 8, 9, 10,
            11, 12, 13, 14, 15, 16, 17, 18, 19, 20] := by
  have a1 : add64 10 1 = 11 := by decide
  have a2 : add64 4 1 = 5 := by decide
  unfold prioritizeOrder
  rw [addInterval_ascending fuel [] 1 4 (by decide) (by decide) (fun _ => by decide) (by omega)]
  simp only [a1, a2]
  rw [addStacks_eq 20 4 (by decide) (by decide) 11 (by decide) (by decide) fuel _ (by omega)]
  simp only
  rw [addInterval_ascending fuel _ 5 20 (by decide) (by decide) (fun _ => by decide) (by omega)]
  rfl

/-- Whatever the fuel, the test either has not built its order yet or has built the one of
`prioritizeOrder_eq`. -/
theorem prioritizeOrder_cases (fuel : Nat) :
    prioritizeOrder fuel 4 1 10 20 = none ∨
    prioritizeOrder fuel 4 1 10 20 =
      some [1, 2, 3, 4, 19, 20, 15, 16, 17, 18, 11, 12, 13, 14, 5, 6, 7, 8, 9, 10,
            11, 12, 13, 14, 15, 16, 17, 18, 19, 20] := by
  by_cases hf : 21 ≤ fuel
  · exact Or.inr (prioritizeOrder_eq fuel hf)
  · have hlt : fuel < 21 := by omega
    interval_cases fuel <;> decide

/-- On a sequence of headers whose heights are the front of the queue, `middleWare` hands
every call to the wrapped function and consumes that front. -/
theorem middleWare_passes {σ : Type} (out : sampleFn σ) (rest : List Nat) :
    ∀ (hs : List Int) (s : σ),
      callAll (checkOrder.middleWare out) (hs.map uintOfInt ++ rest, s) hs
        = ((rest, (callAll out s hs).1), (callAll out s hs).2) := by
  intro hs
  induction hs with
  | nil =>
    intro s
    rfl
  | cons h t ih =>
    intro s
    simp only [List.map_cons, List.cons_append, callAll, checkOrder.middleWare, ne_eq,
      not_true_eq_false, if_false]
    rw [ih]

/-- With a wrapped function that never fails, a sequence no longer than the queue is accepted
without error exactly when its heights are the front of the queue. -/
theorem middleWare_accepts :
    ∀ (hs : List Int) (q : List Nat), hs.length ≤ q.length →
      (((callAll (checkOrder.middleWare sampleOk) (q, ()) hs).2.all Option.isNone = true) ↔
        hs.map uintOfInt = q.take hs.length) := by
  intro hs
  induction hs with
  | nil =>
    intro q _
    simp [callAll]
  | cons h t ih =>
    intro q hlen
    cases q with
    | nil => simp at hlen
    | cons x rest =>
      have hlen1 : t.length ≤ rest.length := by simpa using hlen
      by_cases hx : x = uintOfInt h
      · subst hx
        simp only [callAll, checkOrder.middleWare, ne_eq, not_true_eq_false, if_false, sampleOk,
          List.all_cons, Option.isNone_none, Bool.true_and, List.map_cons, List.length_cons,
          List.take_succ_cons, List.cons.injEq, true_and]
        exact ih rest hlen1
      · have hx1 : ¬ uintOfInt h = x := fun e => hx e.symm
        simp [callAll, checkOrder.middleWare, hx, hx1]

end das

namespace das

/-- C8, as stated, fails: whatever the fuel, the order built by the test does not start with
`1,2,3,4, 17,18,19,20, 13,14,15,16, 11,12, 5,6,7,8, 9,10`; and on the order it does build,
`middleWare` rejects that sequence at its fifth call (height 17) with "expected height 19". -/
theorem prioritize_order_counterexample :
    (¬ ∃ (fuel : Nat) (q : List Nat), prioritizeOrder fuel 4 1 10 20 = some q ∧
        q.take 20 = [1, 2, 3, 4, 17, 18, 19, 20, 13, 14, 15, 16, 11, 12, 5, 6, 7, 8, 9, 10]) ∧
    prioritizeOrder 21 4 1 10 20 =
      some [1, 2, 3, 4, 19, 20, 15, 16, 17, 18, 11, 12, 13, 14, 5, 6, 7, 8, 9, 10,
            11, 12, 13, 14, 15, 16, 17, 18, 19, 20] ∧
    (callAll (checkOrder.middleWare sampleOk)
        ([1, 2, 3, 4, 19, 20, 15, 16, 17, 18, 11, 12, 13, 14, 5, 6, 7, 8, 9, 10,
          11, 12, 13, 14, 15, 16, 17, 18, 19, 20], ())
        [1, 2, 3, 4, 17, 18, 19, 20, 13, 14, 15, 16, 11, 12, 5, 6, 7, 8, 9, 10]).2.take 5
      = [none, none, none, none, some (Err.expectedHeight 19 17)] := by
  refine ⟨?_, by decide, by decide⟩
  rintro ⟨fuel, q, hq, htake⟩
  rcases prioritizeOrder_cases fuel with h | h
  · rw [h] at hq
    cases hq
  · rw [h] at hq
    injection hq with hq
    subst hq
    revert htake
    decide

/-- C8, amended: the order built by the test for `samplingRange = 4`, `sampleFrom = 1`,
`networkHead = 10` and discovered height 20 has as its first 20 elements
`1,2,3,4, 19,20, 15,16,17,18, 11,12,13,14, 5,6,7,8,9,10` (followed by `11 … 20`).
On the headers of these 20 heights `middleWare` hands every call to the wrapped function and
returns its result, so no error of its own; and with a wrapped function that never fails, a
sequence of 20 headers is accepted without error exactly when its heights are that
sequence. -/
theorem prioritize_order_accepted :
    (∀ fuel : Nat, prioritizeOrder (fuel + 21) 4 1 10 20 =
      some ([1, 2, 3, 4, 19, 20, 15, 16, 17, 18, 11, 12, 13, 14, 5, 6, 7, 8, 9, 10]
            ++ [11, 12, 13, 14, 15, 16, 17, 18, 19, 20])) ∧
    (∀ (σ : Type) (out : sampleFn σ) (s : σ),
      callAll (checkOrder.middleWare out)
        ([1, 2, 3, 4, 19, 20, 15, 16, 17, 18, 11, 12, 13, 14, 5, 6, 7, 8, 9, 10]
          ++ [11, 12, 13, 14, 15, 16, 17, 18, 19, 20], s)
        [1, 2, 3, 4, 19, 20, 15, 16, 17, 18, 11, 12, 13, 14, 5, 6, 7, 8, 9, 10]
      = (([11, 12, 13, 14, 15, 16, 17, 18, 19, 20],
          (callAll out s
            [1, 2, 3, 4, 19, 20, 15, 16, 17, 18, 11, 12, 13, 14, 5, 6, 7, 8, 9, 10]).1),
         (callAll out s
            [1, 2, 3, 4, 19, 20, 15, 16, 17, 18, 11, 12, 13, 14, 5, 6, 7, 8, 9, 10]).2)) ∧
    (∀ hs : List Int,
      (hs.length = 20 ∧
        (callAll (checkOrder.middleWare sampleOk)
          ([1, 2, 3, 4, 19, 20, 15, 16, 17, 18, 11, 12, 13, 14, 5, 6, 7, 8, 9, 10]
            ++ [11, 12, 13, 14, 15, 16, 17, 18, 19, 20], ()) hs).2.all Option.isNone = true) ↔
      hs.map uintOfInt
        = [1, 2, 3, 4, 19, 20, 15, 16, 17, 18, 11, 12, 13, 14, 5, 6, 7, 8, 9, 10]) := by
  refine ⟨?_, ?_, ?_⟩
  · intro fuel
    exact prioritizeOrder_eq (fuel + 21) (by omega)
  · intro σ out s
    exact middleWare_passes out [11, 12, 13, 14, 15, 16, 17, 18, 19, 20]
      [1, 2, 3, 4, 19, 20, 15, 16, 17, 18, 11, 12, 13, 14, 5, 6, 7, 8, 9, 10] s
  · intro hs
    constructor
    · rintro ⟨hlen, hok⟩
      have h := (middleWare_accepts hs _ (by rw [hlen]; decide)).1 hok
      rw [h, hlen]
      rfl
    · intro h
      have hlen : hs.length = 20 := by
        have := congrArg List.length h
        simpa using this
      refine ⟨hlen, (middleWare_accepts hs _ (by rw [hlen]; decide)).2 ?_⟩
      rw [h, hlen]
      rfl

end das

namespace das

/-- C13, what the code does: `Start` raises the running flag before it calls `Subscribe` and
returns the error of `Subscribe` without lowering the flag or setting the cancel function.
So one `Start` with a failing `Subscribe` on a DASer freshly built by `NewDASer` (from the
option list of `ConstructModule`, for any configuration) reaches a state with running flag 1
and no cancel function, and a `Stop` called next passes the flag test and panics on the nil
cancel function. -/
theorem running_flag_without_cancel :
    ∀ (c : daser.Config) (da hsub store batching fraudService : Nat) (err : Err)
      (load : Option checkpoint) (head : Option Int) (env : StopEnv checkpoint),
      let d0 := daser.NewDASer da hsub store batching fraudService
        (daser.ConstructModule.options c)
      let d1 := (DASer.calls id d0 [Call.start ⟨some err, load, head⟩]).1
      d1.running = 1 ∧ d1.cancel = false ∧
      (DASer.calls id d0 [Call.start ⟨some err, load, head⟩, Call.stop env]).2
        = [Outcome.returned (some err), Outcome.panicked] ∧
      (d1.Stop id env).2.2
        = [Event.getCheckpoint env.getCheckpoint.1 env.getCheckpoint.2,
           Event.store env.getCheckpoint.1 env.storeFirst] := by
  intro c da hsub store batching fraudService err load head env
  refine ⟨rfl, rfl, rfl, rfl⟩

end das

/-- The keys of a map after `m[k]++`: a missing key is added at the end. -/
theorem mapIncr_keys {κ : Type} [DecidableEq κ] (d : List (κ × Int)) (k : κ) :
    (mapIncr d k).map Prod.fst =
      if k ∈ d.map Prod.fst then d.map Prod.fst else d.map Prod.fst ++ [k] := by
  induction d with
  | nil => simp [mapIncr]
  | cons p rest ih =>
    obtain ⟨k', v⟩ := p
    by_cases hk : k' = k
    · simp [mapIncr, hk]
    · have hk' : ¬ k = k' := fun e => hk e.symm
      by_cases hmem : k ∈ rest.map Prod.fst
      · rw [if_pos hmem] at ih
        have hmem2 : k ∈ ((k', v) :: rest).map Prod.fst := by
          rw [List.map_cons]
          exact List.mem_cons_of_mem _ hmem
        rw [if_pos hmem2]
        simp only [mapIncr, hk, if_false, List.map_cons, ih]
      · rw [if_neg hmem] at ih
        have hmem2 : ¬ k ∈ ((k', v) :: rest).map Prod.fst := by
          rw [List.map_cons, List.mem_cons]
          rintro (h | h)
          · exact hk' h
          · exact hmem h
        rw [if_neg hmem2]
        simp only [mapIncr, hk, if_false, List.map_cons, ih, List.cons_append]

/-- Incrementing the counters of distinct keys that the map does not hold yet adds these
keys, in order. -/
theorem foldl_mapIncr_keys {κ : Type} [DecidableEq κ] :
    ∀ (ks : List κ) (d : List (κ × Int)), (∀ k ∈ ks, k ∉ d.map Prod.fst) → ks.Nodup →
      (ks.foldl mapIncr d).map Prod.fst = d.map Prod.fst ++ ks := by
  intro ks
  induction ks with
  | nil =>
    intro d _ _
    simp
  | cons k rest ih =>
    intro d hnew hnd
    have hk : k ∉ d.map Prod.fst := hnew k (List.mem_cons_self _ _)
    have hkeys : (mapIncr d k).map Prod.fst = d.map Prod.fst ++ [k] := by
      rw [mapIncr_keys, if_neg hk]
    rw [List.foldl_cons, ih (mapIncr d k) ?_ (List.nodup_cons.1 hnd).2, hkeys]
    · simp
    · intro x hx
      rw [hkeys, List.mem_append, List.mem_singleton]
      rintro (h | h)
      · exact hnew x (List.mem_cons_of_mem _ hx) h
      · subst h
        exact (List.nodup_cons.1 hnd).1 hx

namespace das

/-- The state a call of `sample` leaves: the counter of the height is incremented, and the
finished signal fires when the number of keys then exceeds `int(NetworkHead - SampleFrom)`
and it had not fired. -/
theorem sample_state (m : mockSampler) (h : Int) :
    (mockSampler.sample m h).1 =
      if (decide (((mapIncr m.done (uintOfInt h)).length : Int) >
            intOfUint (sub64 m.checkpoint.NetworkHead m.checkpoint.SampleFrom))
          && !m.isFinished) = true then
        { m with done := mapIncr m.done (uintOfInt h), isFinished := true,
                 finishedClosed := true }
      else { m with done := mapIncr m.done (uintOfInt h) } := by
  unfold mockSampler.sample
  simp only
  split_ifs <;> rfl

/-- A call of `sample` leaves the checkpoint as it was. -/
theorem sample_checkpoint (m : mockSampler) (h : Int) :
    (mockSampler.sample m h).1.checkpoint = m.checkpoint := by
  rw [sample_state]
  split_ifs <;> rfl

/-- A call of `sample` increments the counter of its height. -/
theorem sample_done (m : mockSampler) (h : Int) :
    (mockSampler.sample m h).1.done = mapIncr m.done (uintOfInt h) := by
  rw [sample_state]
  split_ifs <;> rfl

/-- After a call of `sample` that leaves more keys than `int(NetworkHead - SampleFrom)`, the
finished signal has fired. -/
theorem sample_finished (m : mockSampler) (h : Int)
    (hlen : ((mockSampler.sample m h).1.done.length : Int) >
      intOfUint (sub64 m.checkpoint.NetworkHead m.checkpoint.SampleFrom)) :
    (mockSampler.sample m h).1.isFinished = true := by
  rw [sample_done] at hlen
  rw [sample_state]
  cases hfin : m.isFinished
  · simp [hlen]
  · simp [hfin]

/-- The state after a sequence of calls followed by one more call. -/
theorem callAll_concat_state {σ : Type} (f : sampleFn σ) :
    ∀ (hs : List Int) (s : σ) (h : Int),
      (callAll f s (hs ++ [h])).1 = (f (callAll f s hs).1 h).1 := by
  intro hs
  induction hs with
  | nil =>
    intro s h
    rfl
  | cons x rest ih =>
    intro s h
    simp only [List.cons_append, callAll]
    exact ih (f s x).1 h

/-- A sequence of calls of `sample` leaves the checkpoint as it was and increments the
counters of its heights in order. -/
theorem callAll_sample_state :
    ∀ (hs : List Int) (m : mockSampler),
      (callAll mockSampler.sample m hs).1.checkpoint = m.checkpoint ∧
      (callAll mockSampler.sample m hs).1.done = (hs.map uintOfInt).foldl mapIncr m.done := by
  intro hs
  induction hs with
  | nil =>
    intro m
    exact ⟨rfl, rfl⟩
  | cons x rest ih =>
    intro m
    have h := ih (mockSampler.sample m x).1
    simp only [callAll, List.map_cons, List.foldl_cons]
    rw [h.1, h.2, sample_checkpoint, sample_done]
    exact ⟨rfl, rfl⟩

/-- After a non-empty sequence of calls of `sample` that leaves more keys than
`int(NetworkHead - SampleFrom)`, the finished signal has fired. -/
theorem callAll_sample_finished (hs : List Int) (m : mockSampler) (hne : hs ≠ [])
    (hlen : ((callAll mockSampler.sample m hs).1.done.length : Int) >
      intOfUint (sub64 m.checkpoint.NetworkHead m.checkpoint.SampleFrom)) :
    (callAll mockSampler.sample m hs).1.isFinished = true := by
  rcases List.eq_nil_or_concat hs with h | ⟨pre, x, rfl⟩
  · exact absurd h hne
  · rw [List.concat_eq_append, callAll_concat_state] at hlen ⊢
    apply sample_finished
    rw [(callAll_sample_state pre m).1]
    exact hlen

end das

/-- Converting a height below `2 ^ 64`, held in an `int64` header field, back to `uint64`
gives the height. -/
theorem uintOfInt_ofNat (k : Nat) (hk : k < u64) : uintOfInt (Int.ofNat k) = k := by
  unfold uintOfInt u64 at *
  simp only [Int.ofNat_eq_coe]
  omega

namespace das

/-- The heights of `retryHeights` are below 494, distinct, and survive the conversions
between `int64` and `uint64`. -/
theorem retryHeights_facts :
    (∀ k ∈ retryHeights, k < 494) ∧
    (retryHeights.map Int.ofNat).map uintOfInt = retryHeights ∧
    retryHeights.Nodup ∧
    retryHeights.length = 451 := by
  have hlt : ∀ k ∈ retryHeights, k < 494 := by
    intro k hk
    rcases List.mem_append.1 hk with h | h
    · have : ∀ x ∈ [4, 8, 15, 16, 23, 42, 49], x < 494 := by decide
      exact this k h
    · rw [List.mem_range'_1] at h
      omega
  refine ⟨hlt, ?_, ?_, ?_⟩
  · rw [List.map_map]
    conv_rhs => rw [← List.map_id retryHeights]
    apply List.map_congr_left
    intro k hk
    exact uintOfInt_ofNat k (by have := hlt k hk; unfold u64; omega)
  · unfold retryHeights
    rw [List.nodup_append]
    refine ⟨by decide, List.nodup_range' 50 444, ?_⟩
    intro a ha hb
    have hlt : a < 50 := by
      have : ∀ x ∈ [4, 8, 15, 16, 23, 42, 49], x < 50 := by decide
      exact this a ha
    rw [List.mem_range'_1] at hb
    omega
  · unfold retryHeights
    rw [List.length_append, List.length_range']
    rfl

/-- On a sampler without counters yet, a non-empty sequence of calls with distinct heights,
more of them than `int(NetworkHead - SampleFrom)`, leaves the checkpoint as it was, has
these heights as the keys of `done`, and has fired the finished signal. -/
theorem sample_distinct_heights (m0 : mockSampler) (calls : List Int) (ks : List Nat)
    (hmap : calls.map uintOfInt = ks) (hnd : ks.Nodup) (hdone : m0.done = [])
    (hne : calls ≠ [])
    (hbig : (ks.length : Int) >
      intOfUint (sub64 m0.checkpoint.NetworkHead m0.checkpoint.SampleFrom)) :
    (callAll mockSampler.sample m0 calls).1.checkpoint = m0.checkpoint ∧
    (callAll mockSampler.sample m0 calls).1.isFinished = true ∧
    (callAll mockSampler.sample m0 calls).1.done.map Prod.fst = ks := by
  have hst := callAll_sample_state calls m0
  have hkeys : (callAll mockSampler.sample m0 calls).1.done.map Prod.fst = ks := by
    rw [hst.2, hmap, foldl_mapIncr_keys ks m0.done (fun k _ => by simp [hdone]) hnd, hdone]
    rfl
  refine ⟨hst.1, ?_, hkeys⟩
  apply callAll_sample_finished calls m0 hne
  have hlen : (callAll mockSampler.sample m0 calls).1.done.length = ks.length := by
    have := congrArg List.length hkeys
    simpa using this
  rw [hlen]
  exact hbig

end das

namespace das

/-- C12, what the code does: `sample` counts every distinct height it is given, also one
outside `[SampleFrom..NetworkHead]`, and fires the finished signal once that count exceeds
`NetworkHead - SampleFrom`.  On the sampler of the test "failed should retry on restart"
(range `[50..500]`, seven failed heights below 50), after the seven retried heights and the
heights `50 … 493` the signal has fired although `494 … 500` were never passed to `sample`;
on the same sampler with range `[50..52]` it has fired after the heights `4, 8, 15`, with no
height of the range sampled. -/
theorem finished_before_range_sampled :
    ((callAll mockSampler.sample (retrySampler 500)
        (retryHeights.map Int.ofNat)).1.checkpoint.SampleFrom = 50 ∧
     (callAll mockSampler.sample (retrySampler 500)
        (retryHeights.map Int.ofNat)).1.checkpoint.NetworkHead = 500 ∧
     (callAll mockSampler.sample (retrySampler 500)
        (retryHeights.map Int.ofNat)).1.isFinished = true ∧
     (∀ h : Nat, 494 ≤ h → h ≤ 500 →
        Int.ofNat h ∉ retryHeights.map Int.ofNat ∧
        h ∉ (callAll mockSampler.sample (retrySampler 500)
              (retryHeights.map Int.ofNat)).1.done.map Prod.fst)) ∧
    (callAll mockSampler.sample (retrySampler 52) [4, 8, 15]).1 =
      { checkpoint :=
          { SampleFrom := 50, NetworkHead := 52,
            Failed := [(4, 1), (8, 2), (15, 1), (16, 1), (23, 1), (42, 1), (49, 1)],
            Workers := [] }
        bornToFail := [16]
        done := [(4, 1), (8, 1), (15, 1)]
        isFinished := true
        finishedClosed := true } := by
  refine ⟨?_, by decide⟩
  have hne : retryHeights.map Int.ofNat ≠ [] := by
    intro h
    have := congrArg List.length h
    rw [List.length_map, retryHeights_facts.2.2.2] at this
    cases this
  have hbig : (retryHeights.length : Int) >
      intOfUint (sub64 (retrySampler 500).checkpoint.NetworkHead
        (retrySampler 500).checkpoint.SampleFrom) := by
    rw [retryHeights_facts.2.2.2]
    decide
  have key := sample_distinct_heights (retrySampler 500) (retryHeights.map Int.ofNat)
    retryHeights retryHeights_facts.2.1 retryHeights_facts.2.2.1 rfl hne hbig
  refine ⟨?_, ?_, key.2.1, ?_⟩
  · exact (congrArg checkpoint.SampleFrom key.1).trans rfl
  · exact (congrArg checkpoint.NetworkHead key.1).trans rfl
  · intro h h1 h2
    have hnot : h ∉ retryHeights := by
      intro hm
      have := retryHeights_facts.1 h hm
      omega
    constructor
    · intro hm
      obtain ⟨k, hk, hkh⟩ := List.mem_map.1 hm
      have : k = h := Int.ofNat.inj hkh
      subst this
      exact hnot hk
    · rw [key.2.2]
      exact hnot

end das

/-- Go `int` arithmetic does not wrap on a value of the non-negative `int` range. -/
theorem wrapInt_eq (x : Int) (h0 : 0 ≤ x) (h1 : x < 2 ^ 63) : wrapInt x = x := by
  unfold wrapInt
  omega

/-- Reading an empty map. -/
theorem mapGet_nil {κ : Type} [DecidableEq κ] (k : κ) : mapGet ([] : List (κ × Int)) k = 0 :=
  rfl

/-- Reading a map entry by entry. -/
theorem mapGet_cons {κ : Type} [DecidableEq κ] (k0 : κ) (v : Int) (rest : List (κ × Int))
    (k : κ) : mapGet ((k0, v) :: rest) k = if k = k0 then v else mapGet rest k := by
  unfold mapGet
  by_cases h : k = k0
  · subst h
    simp [List.lookup]
  · have hb : (k == k0) = false := beq_false_of_ne h
    simp [List.lookup, hb, h]

/-- Reading a map after `m[k]++`. -/
theorem mapGet_mapIncr {κ : Type} [DecidableEq κ] (m : List (κ × Int)) (k k' : κ) :
    mapGet (mapIncr m k) k' = if k' = k then wrapInt (mapGet m k + 1) else mapGet m k' := by
  induction m with
  | nil =>
    simp only [mapIncr, mapGet_cons, mapGet_nil]
  | cons p rest ih =>
    obtain ⟨k0, v⟩ := p
    by_cases h0 : k0 = k
    · subst h0
      simp only [mapIncr, if_true, mapGet_cons]
      split_ifs <;> rfl
    · have h0' : ¬ k = k0 := fun e => h0 e.symm
      simp only [mapIncr, h0, if_false, mapGet_cons, ih, h0']
      by_cases h : k' = k
      · subst h
        simp [h0']
      · simp [h]


namespace das

/-- A call through `onceMiddleWare` increments the counter of its height in `db`, whatever
it returns. -/
theorem once_db {σ : Type} (out : sampleFn σ) (st : List (Int × Int) × σ) (h : Int) :
    (onceMiddleWare out st h).1.1 = mapIncr st.1 h := by
  unfold onceMiddleWare
  simp only
  split_ifs <;> rfl

/-- When `db` counts the earlier calls and the counter of `h` cannot wrap, a call for a
height not seen yet is handed to `out`. -/
theorem once_first {σ : Type} (out : sampleFn σ) (st : List (Int × Int) × σ) (h : Int)
    (pre : List Int) (hinv : ∀ x, mapGet st.1 x = (pre.count x : Int)) (hnew : h ∉ pre) :
    onceMiddleWare out st h = ((mapIncr st.1 h, (out st.2 h).1), (out st.2 h).2) := by
  have hc : pre.count h = 0 := List.count_eq_zero_of_not_mem hnew
  have hget : mapGet (mapIncr st.1 h) h = 1 := by
    rw [mapGet_mapIncr, if_pos rfl, hinv h, hc]
    exact wrapInt_eq _ (by decide) (by decide)
  unfold onceMiddleWare
  simp only [hget]
  rfl

/-- When `db` counts the earlier calls and the counter of `h` cannot wrap, a call for a
height seen before returns the error and leaves the state of `out` as it was. -/
theorem once_again {σ : Type} (out : sampleFn σ) (st : List (Int × Int) × σ) (h : Int)
    (pre : List Int) (hinv : ∀ x, mapGet st.1 x = (pre.count x : Int))
    (hb : pre.count h + 1 < 2 ^ 63) (hmem : h ∈ pre) :
    onceMiddleWare out st h = ((mapIncr st.1 h, st.2), some (Err.sampledTwice h)) := by
  have hc : 0 < pre.count h := List.count_pos_iff.2 hmem
  have hget : mapGet (mapIncr st.1 h) h = (pre.count h : Int) + 1 := by
    rw [mapGet_mapIncr, if_pos rfl, hinv h]
    exact wrapInt_eq _ (by omega) (by omega)
  have hgt : mapGet (mapIncr st.1 h) h > 1 := by
    rw [hget]
    omega
  unfold onceMiddleWare
  simp only [hgt, if_true]

/-- One call keeps `db` counting the calls made, as long as the counter cannot wrap. -/
theorem once_counts_step {σ : Type} (out : sampleFn σ) (st : List (Int × Int) × σ) (h : Int)
    (pre : List Int) (hinv : ∀ x, mapGet st.1 x = (pre.count x : Int))
    (hb : pre.count h + 1 < 2 ^ 63) :
    ∀ x, mapGet (onceMiddleWare out st h).1.1 x = ((pre ++ [h]).count x : Int) := by
  intro x
  rw [once_db, mapGet_mapIncr, List.count_append, List.count_singleton]
  by_cases hx : x = h
  · subst hx
    simp only [if_true, hinv x, beq_self_eq_true]
    rw [wrapInt_eq _ (by omega) (by omega)]
    simp
  · have hx' : (h == x) = false := beq_false_of_ne (fun e => hx e.symm)
    simp [hx, hx', hinv x]

/-- The bound on the counters along a sequence of calls gives the bound at its first call. -/
theorem count_bound_head (pre : List Int) (h : Int) (t : List Int)
    (hbound : ∀ x, (pre ++ h :: t).count x < 2 ^ 63) : pre.count h + 1 < 2 ^ 63 := by
  have := hbound h
  rw [List.count_append, List.count_cons_self] at this
  omega

/-- A sequence of calls keeps `db` counting the calls made, as long as no counter can wrap. -/
theorem once_counts {σ : Type} (out : sampleFn σ) :
    ∀ (post pre : List Int) (st : List (Int × Int) × σ),
      (∀ x, mapGet st.1 x = (pre.count x : Int)) →
      (∀ x, (pre ++ post).count x < 2 ^ 63) →
      ∀ x, mapGet (callAll (onceMiddleWare out) st post).1.1 x = ((pre ++ post).count x : Int) := by
  intro post
  induction post with
  | nil =>
    intro pre st hinv _ x
    simpa [callAll] using hinv x
  | cons h t ih =>
    intro pre st hinv hbound x
    have hb := count_bound_head pre h t hbound
    have hstep := once_counts_step out st h pre hinv hb
    have hassoc : pre ++ h :: t = (pre ++ [h]) ++ t := by simp
    simp only [callAll]
    rw [hassoc]
    exact ih (pre ++ [h]) (onceMiddleWare out st h).1 hstep (by rw [← hassoc]; exact hbound) x

end das

namespace das

/-- With a recording wrapped function, the record holds every height called so far exactly
once, as long as no counter can wrap. -/
theorem once_record {σ : Type} (out : sampleFn σ) :
    ∀ (post pre : List Int) (st : List (Int × Int) × (List Int × σ)),
      (∀ x, mapGet st.1 x = (pre.count x : Int)) →
      (∀ x, (pre ++ post).count x < 2 ^ 63) →
      (∀ x, st.2.1.count x = if x ∈ pre then 1 else 0) →
      ∀ x, (callAll (onceMiddleWare (logCalls out)) st post).1.2.1.count x
        = if x ∈ pre ++ post then 1 else 0 := by
  intro post
  induction post with
  | nil =>
    intro pre st _ _ hlog x
    simpa [callAll] using hlog x
  | cons h t ih =>
    intro pre st hinv hbound hlog x
    have hb := count_bound_head pre h t hbound
    have hstep := once_counts_step (logCalls out) st h pre hinv hb
    have hassoc : pre ++ h :: t = (pre ++ [h]) ++ t := by simp
    simp only [callAll]
    rw [hassoc]
    refine ih (pre ++ [h]) (onceMiddleWare (logCalls out) st h).1 hstep
      (by rw [← hassoc]; exact hbound) ?_ x
    intro y
    by_cases hmem : h ∈ pre
    · rw [once_again (logCalls out) st h pre hinv hb hmem]
      simp only [hlog y, List.mem_append, List.mem_singleton]
      by_cases hy : y = h
      · subst hy
        simp [hmem]
      · simp [hy]
    · rw [once_first (logCalls out) st h pre hinv hmem]
      simp only [logCalls, List.count_append, List.count_singleton, hlog y, List.mem_append,
        List.mem_singleton]
      by_cases hy : y = h
      · subst hy
        simp [hmem]
      · have hy' : (h == y) = false := beq_false_of_ne (fun e => hy e.symm)
        simp [hy, hy']

/-- When no call of a sequence returns an error, the heights of the sequence are distinct and
none was called before, as long as no counter can wrap. -/
theorem once_no_error {σ : Type} (out : sampleFn σ) :
    ∀ (post pre : List Int) (st : List (Int × Int) × σ),
      (∀ x, mapGet st.1 x = (pre.count x : Int)) →
      (∀ x, (pre ++ post).count x < 2 ^ 63) →
      (callAll (onceMiddleWare out) st post).2.all Option.isNone = true →
      post.Nodup ∧ ∀ x ∈ post, x ∉ pre := by
  intro post
  induction post with
  | nil =>
    intro pre st _ _ _
    exact ⟨List.nodup_nil, fun x hx => by cases hx⟩
  | cons h t ih =>
    intro pre st hinv hbound hok
    have hb := count_bound_head pre h t hbound
    have hstep := once_counts_step out st h pre hinv hb
    have hassoc : pre ++ h :: t = (pre ++ [h]) ++ t := by simp
    simp only [callAll, List.all_cons, Bool.and_eq_true] at hok
    have hnew : h ∉ pre := by
      intro hmem
      rw [once_again out st h pre hinv hb hmem] at hok
      simp at hok
    have hrest := ih (pre ++ [h]) (onceMiddleWare out st h).1 hstep
      (by rw [← hassoc]; exact hbound) hok.2
    refine ⟨List.nodup_cons.2 ⟨?_, hrest.1⟩, ?_⟩
    · intro hmem
      exact hrest.2 h hmem (by simp)
    · intro x hx
      rcases List.mem_cons.1 hx with hx | hx
      · rw [hx]
        exact hnew
      · intro hp
        exact hrest.2 x hx (List.mem_append_left _ hp)

/-- The counters of a part of a sequence are bounded by those of the sequence. -/
theorem count_bound_front (pre : List Int) (h : Int) (post : List Int) (hs : List Int)
    (hsplit : hs = pre ++ h :: post) (hbound : ∀ x, hs.count x < 2 ^ 63) :
    (∀ x, ([] ++ pre).count x < 2 ^ 63) ∧ pre.count h + 1 < 2 ^ 63 := by
  subst hsplit
  constructor
  · intro x
    have := hbound x
    rw [List.count_append] at this
    simp only [List.nil_append]
    omega
  · exact count_bound_head pre h post hbound

end das

namespace das

/-- A call whose incremented counter is not above 1 is handed to the wrapped function. -/
theorem once_passes {σ : Type} (out : sampleFn σ) (st : List (Int × Int) × σ) (h : Int)
    (hget : ¬ mapGet (mapIncr st.1 h) h > 1) :
    onceMiddleWare out st h = ((mapIncr st.1 h, (out st.2 h).1), (out st.2 h).2) := by
  unfold onceMiddleWare
  simp only [hget, if_false]

/-- After `n = 2^63 - 1` calls for one height, the next call for it wraps its counter to the
least `int`: the call is handed to the wrapped function again and returns its result. -/
theorem once_wraps (n : Nat) (hn : (n : Int) = 2 ^ 63 - 1) (h : Int) :
    (callAll (onceMiddleWare (logCalls sampleOk)) ([], ([], ()))
        (List.replicate n h ++ [h])).1.2.1.count h = 2 ∧
    (onceMiddleWare (logCalls sampleOk)
        (callAll (onceMiddleWare (logCalls sampleOk)) ([], ([], ()))
          (List.replicate n h)).1 h).2 = none := by
  have hpos : n ≠ 0 := by omega
  have hmem : h ∈ List.replicate n h := List.mem_replicate.2 ⟨hpos, rfl⟩
  have hbound : ∀ x, ([] ++ List.replicate n h).count x < 2 ^ 63 := by
    intro x
    have h1 := List.count_le_length x (List.replicate n h)
    rw [List.length_replicate] at h1
    simp only [List.nil_append]
    omega
  have hinv := once_counts (logCalls sampleOk) (List.replicate n h) [] ([], ([], ()))
    (fun x => by simp [mapGet_nil]) hbound
  have hlog := once_record sampleOk (List.replicate n h) [] ([], ([], ()))
    (fun x => by simp [mapGet_nil]) hbound (fun x => by simp)
  simp only [List.nil_append] at hinv hlog
  have hget : mapGet (mapIncr
      (callAll (onceMiddleWare (logCalls sampleOk)) ([], ([], ()))
        (List.replicate n h)).1.1 h) h = -2 ^ 63 := by
    rw [mapGet_mapIncr, if_pos rfl, hinv h, List.count_replicate_self, hn]
    unfold wrapInt
    omega
  have hstep : onceMiddleWare (logCalls sampleOk)
      (callAll (onceMiddleWare (logCalls sampleOk)) ([], ([], ())) (List.replicate n h)).1 h
      = ((mapIncr (callAll (onceMiddleWare (logCalls sampleOk)) ([], ([], ()))
            (List.replicate n h)).1.1 h,
          ((callAll (onceMiddleWare (logCalls sampleOk)) ([], ([], ()))
            (List.replicate n h)).1.2.1 ++ [h], ())), none) := by
    rw [once_passes (logCalls sampleOk) _ h (by rw [hget]; decide)]
    rfl
  constructor
  · rw [callAll_concat_state, hstep]
    simp only [List.count_append, List.count_singleton, beq_self_eq_true, if_true]
    rw [hlog h, if_pos hmem]
  · rw [hstep]

/-- C11, as stated, fails: after `2^63 - 1` calls for height 7 the counter `db[7]` is the
greatest `int`, the next `db[7]++` wraps it to the least one, which is not `> 1`; that later
call for the same height returns nil and the wrapped function is invoked a second time. -/
theorem onceMiddleWare_wrap_counterexample :
    (callAll (onceMiddleWare (logCalls sampleOk)) ([], ([], ()))
        (List.replicate (2 ^ 63 - 1) 7 ++ [7])).1.2.1.count 7 = 2 ∧
    (onceMiddleWare (logCalls sampleOk)
        (callAll (onceMiddleWare (logCalls sampleOk)) ([], ([], ()))
          (List.replicate (2 ^ 63 - 1) 7)).1 7).2 = none :=
  once_wraps (2 ^ 63 - 1) (by norm_num) 7

/-- C11, amended: for every sequence of calls to the function returned by
`onceMiddleWare(out)` in which no height is passed `2^63` times or more.  A call for a height
not passed before is handed to `out` once and returns its result; a call for a height passed
before returns the error "header sampled more than once" and leaves the state of `out`
untouched.  Hence a recording `out` has recorded every height of the sequence exactly once
(and nothing else), and when no call of the sequence returns an error its heights are
distinct. -/
theorem onceMiddleWare_once {σ : Type} (out : sampleFn σ) (s : σ) (hs : List Int)
    (hbound : ∀ x, hs.count x < 2 ^ 63) :
    (∀ pre h post, hs = pre ++ h :: post → h ∉ pre →
      onceMiddleWare out (callAll (onceMiddleWare out) ([], s) pre).1 h =
        ((mapIncr (callAll (onceMiddleWare out) ([], s) pre).1.1 h,
          (out (callAll (onceMiddleWare out) ([], s) pre).1.2 h).1),
         (out (callAll (onceMiddleWare out) ([], s) pre).1.2 h).2)) ∧
    (∀ pre h post, hs = pre ++ h :: post → h ∈ pre →
      onceMiddleWare out (callAll (onceMiddleWare out) ([], s) pre).1 h =
        ((mapIncr (callAll (onceMiddleWare out) ([], s) pre).1.1 h,
          (callAll (onceMiddleWare out) ([], s) pre).1.2),
         some (Err.sampledTwice h))) ∧
    (∀ x, (callAll (onceMiddleWare (logCalls out)) ([], ([], s)) hs).1.2.1.count x
      = if x ∈ hs then 1 else 0) ∧
    ((callAll (onceMiddleWare out) ([], s) hs).2.all Option.isNone = true → hs.Nodup) := by
  have hall : ∀ x, ([] ++ hs).count x < 2 ^ 63 := by simpa using hbound
  refine ⟨?_, ?_, ?_, ?_⟩
  · intro pre h post hsplit hnew
    have hb := count_bound_front pre h post hs hsplit hbound
    have hinv := once_counts out pre [] ([], s) (fun x => by simp [mapGet_nil]) hb.1
    exact once_first out _ h pre (by simpa using hinv) hnew
  · intro pre h post hsplit hmem
    have hb := count_bound_front pre h post hs hsplit hbound
    have hinv := once_counts out pre [] ([], s) (fun x => by simp [mapGet_nil]) hb.1
    exact once_again out _ h pre (by simpa using hinv) hb.2 hmem
  · intro x
    have h := once_record out hs [] ([], ([], s)) (fun x => by simp [mapGet_nil]) hall
      (fun x => by simp) x
    simpa using h
  · intro hok
    exact (once_no_error out hs [] ([], s) (fun x => by simp [mapGet_nil]) hall hok).1

/-- C11 amended, on the calls `1, 2, 1, 3` with a wrapped function that never fails: the
third call (height 1 again) returns the error, and the record of the wrapped function holds
height 1 once. -/
theorem onceMiddleWare_once_witness :
    (onceMiddleWare sampleOk (callAll (onceMiddleWare sampleOk) ([], ()) [1, 2]).1 1).2
      = some (Err.sampledTwice 1) ∧
    (callAll (onceMiddleWare (logCalls sampleOk)) ([], ([], ())) [1, 2, 1, 3]).1.2.1.count 1
      = 1 :=
  ⟨congrArg Prod.snd
      ((onceMiddleWare_once sampleOk () [1, 2, 1, 3]
        (fun x => lt_of_le_of_lt (List.count_le_length x _) (by decide))).2.1
        [1, 2] 1 [3] rfl (by decide)),
   ((onceMiddleWare_once sampleOk () [1, 2, 1, 3]
        (fun x => lt_of_le_of_lt (List.count_le_length x _) (by decide))).2.2.1 1).trans
      (by decide)⟩

end das
